import Mathlib

/-!
# Method classification and registry construction (`component/method.go`)

A shallow embedding of `isExported`, `isRemoteMethod`, `isHandlerMethod`,
`suitableRemoteMethods` and `suitableHandlerMethods`.

* Go's reflective metadata (`reflect.Type`, `reflect.Method`) is an input of the
  code; it is represented by plain records.
* Indexing a parameter list out of range (`mt.In(i)`, `mt.Out(i)`,
  `typ.Method(i)`) and dereferencing a nil map entry panic in Go; the embedding
  returns `none` there, so every function that can reach such an access returns
  an `Option`.
* `Type.Implements` depends on method sets that the code never inspects; it is
  taken as a parameter `I : RType → RType → Bool`.
-/

namespace Component

/-! ## Reflective metadata -/

/-- The kinds of `reflect.Kind`, in the order of the Go declaration. -/
inductive Kind where
  | Invalid | Bool | Int | Int8 | Int16 | Int32 | Int64
  | Uint | Uint8 | Uint16 | Uint32 | Uint64 | Uintptr
  | Float32 | Float64 | Complex64 | Complex128
  | Array | Chan | Func | Interface | Map | Ptr | Slice | String | Struct
  | UnsafePointer
  deriving DecidableEq, Repr

/-- A `reflect.Type` used as a parameter or result type: its identity (the
string of the type, which `==` on `reflect.Type` compares) and its kind. -/
structure RType where
  name : String
  kind : Kind
  deriving DecidableEq, Repr

/-- The type of a method as a function: `reflect.Type` of kind `Func`, with
its ordered inputs (receiver first) and its ordered outputs. -/
structure FuncType where
  ins : List RType
  outs : List RType
  deriving DecidableEq, Repr

/-- Number of inputs, `mt.NumIn()`. -/
def FuncType.NumIn (mt : FuncType) : Nat := mt.ins.length

/-- Number of outputs, `mt.NumOut()`. -/
def FuncType.NumOut (mt : FuncType) : Nat := mt.outs.length

/-- The i-th input, `mt.In(i)`; `none` stands for the out-of-range panic. -/
def FuncType.In (mt : FuncType) (i : Nat) : Option RType := mt.ins[i]?

/-- The i-th output, `mt.Out(i)`; `none` stands for the out-of-range panic. -/
def FuncType.Out (mt : FuncType) (i : Nat) : Option RType := mt.outs[i]?

/-- A `reflect.Method`: name, package path (empty for an exported method),
function type and index in the method set of its type. The `Func` value is
never read by the code and is left out. -/
structure Method where
  Name : String
  PkgPath : String
  Typ : FuncType
  Index : Nat
  deriving DecidableEq, Repr

/-- One entry of the method set of an owning type, before enumeration. -/
structure MethodDecl where
  Name : String
  PkgPath : String
  Typ : FuncType
  deriving DecidableEq, Repr

/-- The owning `reflect.Type` handed to the builders: its method set in
enumeration order. -/
structure OwnerType where
  decls : List MethodDecl
  deriving DecidableEq, Repr

/-- Number of enumerated methods, `typ.NumMethod()`. -/
def OwnerType.NumMethod (typ : OwnerType) : Nat := typ.decls.length

/-- The i-th method, `typ.Method(i)`, whose `Index` is `i`; `none` stands for
the out-of-range panic. -/
def OwnerType.Method (typ : OwnerType) (i : Nat) : Option Method :=
  (typ.decls[i]?).map fun d =>
    { Name := d.Name, PkgPath := d.PkgPath, Typ := d.Typ, Index := i }

/-! ## Package-level type constants (lines 33-38) -/

/-- Value of `reflect.TypeOf((*error)(nil)).Elem()`. -/
def typeOfError : RType := { name := "error", kind := Kind.Interface }

/-- Value of `reflect.TypeOf(([]byte)(nil))`. -/
def typeOfBytes : RType := { name := "[]uint8", kind := Kind.Slice }

/-- Value of `reflect.TypeOf(new(context.Context)).Elem()`. -/
def typeOfContext : RType := { name := "context.Context", kind := Kind.Interface }

/-- Value of `reflect.TypeOf(new(proto.Message)).Elem()`. -/
def typeOfProtoMsg : RType := { name := "proto.Message", kind := Kind.Interface }

/-! ## Descriptors and the registry map -/

/-- Modelled from the spec: the enumeration `message.Type` of package
`conn/message`, restricted to the two values the spec names for a Handler
descriptor. -/
inductive MessageType where
  | Request | Notify
  deriving DecidableEq, Repr

/-- Modelled from the spec: the `Remote` descriptor record (declared outside
`method.go`): handle, `hasArgs`, and `argType`, absent (`nil`) as `none`. -/
structure Remote where
  Method : Method
  HasArgs : Bool
  Typ : Option RType
  deriving DecidableEq, Repr

/-- Modelled from the spec: the `Handler` descriptor record (declared outside
`method.go`): handle, `isRawPayload`, `messageKind`, and `argType`, absent
(`nil`) as `none`. -/
structure Handler where
  Method : Method
  IsRawArg : Bool
  MessageType : MessageType
  Typ : Option RType
  deriving DecidableEq, Repr

/-- A Go `map[string]*V`, as an association list holding at most one entry
per key. -/
abbrev GoMap (V : Type) := List (String × V)

/-- The read `m[k]`; `none` is the nil pointer of a missing key. -/
def GoMap.get {V : Type} : GoMap V → String → Option V
  | [], _ => none
  | (k', v) :: m, k => if k = k' then some v else GoMap.get m k

/-- The assignment `m[k] = v`: any entry under `k` is replaced. -/
def GoMap.set {V : Type} (m : GoMap V) (k : String) (v : V) : GoMap V :=
  (k, v) :: m.filter (fun e => decide (e.1 ≠ k))

/-- The keys of a map. -/
def GoMap.keys {V : Type} (m : GoMap V) : List String := m.map Prod.fst

/-! ## The predicates -/

/-- Embedding of `isRemoteMethod` (lines 47-83); every early `return false` is
a `some false`, and `mt.In`/`mt.Out` are read where the source reads them. -/
def isRemoteMethod (I : RType → RType → Bool) (method : Method) : Option Bool :=
  let mt := method.Typ
  if method.PkgPath ≠ "" then some false
  else if mt.NumIn ≠ 2 ∧ mt.NumIn ≠ 3 then some false
  else do
    let t1 ← mt.In 1
    if !(I t1 typeOfContext) then some false
    else do
      let inputsOk ←
        if mt.NumIn = 3 then do
          let t2 ← mt.In 2
          pure (I t2 typeOfProtoMsg)
        else pure true
      if !inputsOk then some false
      else if mt.NumOut ≠ 2 then some false
      else do
        let o0 ← mt.Out 0
        if o0.kind ≠ Kind.Ptr then some false
        else do
          let o1 ← mt.Out 1
          if o1 ≠ typeOfError then some false
          else do
            let o0 ← mt.Out 0
            if !(I o0 typeOfProtoMsg) then some false
            else some true

/-- Embedding of `isHandlerMethod` (lines 86-116); `&&` and `||` evaluate
their right operand only when Go does. -/
def isHandlerMethod (I : RType → RType → Bool) (method : Method) : Option Bool :=
  let mt := method.Typ
  if method.PkgPath ≠ "" then some false
  else if mt.NumIn ≠ 2 ∧ mt.NumIn ≠ 3 then some false
  else do
    let t1 ← mt.In 1
    if !(I t1 typeOfContext) then some false
    else do
      let badPayload ←
        if mt.NumIn = 3 then do
          let t2 ← mt.In 2
          if t2.kind ≠ Kind.Ptr then do
            let t2 ← mt.In 2
            pure (decide (t2 ≠ typeOfBytes))
          else pure false
        else pure false
      if badPayload then some false
      else if mt.NumOut ≠ 0 ∧ mt.NumOut ≠ 2 then some false
      else do
        let badOutputs ←
          if mt.NumOut = 2 then do
            let o1 ← mt.Out 1
            if o1 ≠ typeOfError then pure true
            else do
              let o0 ← mt.Out 0
              if o0 ≠ typeOfBytes then do
                let o0 ← mt.Out 0
                pure (decide (o0.kind ≠ Kind.Ptr))
              else pure false
          else pure false
        if badOutputs then some false
        else some true

/-! ## The registry builders -/

/-- Body of the loop of `suitableRemoteMethods` (lines 121-136) at index `m`,
from the map built so far to the map after the iteration. The descriptor is
stored first and its `Type` is assigned afterwards through the map entry, as
in the source. -/
def remoteLoopBody (I : RType → RType → Bool) (typ : OwnerType)
    (nameFunc : Option (String → String)) (methods : GoMap Remote) (m : Nat) :
    Option (GoMap Remote) := do
  let method ← typ.Method m
  let mt := method.Typ
  let mn := method.Name
  if (← isRemoteMethod I method) then
    let mn := match nameFunc with
      | some f => f mn
      | none => mn
    let methods := methods.set mn
      { Method := method, HasArgs := decide (method.Typ.NumIn = 3), Typ := none }
    if mt.NumIn = 3 then
      let t2 ← mt.In 2
      let r ← methods.get mn
      pure (methods.set mn { r with Typ := some t2 })
    else pure methods
  else pure methods

/-- Embedding of `suitableRemoteMethods` (lines 118-139): the loop runs over
`m = 0, ..., typ.NumMethod() - 1` starting from the empty map. -/
def suitableRemoteMethods (I : RType → RType → Bool) (typ : OwnerType)
    (nameFunc : Option (String → String)) : Option (GoMap Remote) :=
  (List.range typ.NumMethod).foldlM (remoteLoopBody I typ nameFunc) []

/-- Body of the loop of `suitableHandlerMethods` (lines 145-172) at index
`m`. -/
def handlerLoopBody (I : RType → RType → Bool) (typ : OwnerType)
    (nameFunc : Option (String → String)) (methods : GoMap Handler) (m : Nat) :
    Option (GoMap Handler) := do
  let method ← typ.Method m
  let mt := method.Typ
  let mn := method.Name
  if (← isHandlerMethod I method) then
    let raw ←
      if mt.NumIn = 3 then do
        let t2 ← mt.In 2
        pure (decide (t2 = typeOfBytes))
      else pure false
    let mn := match nameFunc with
      | some f => f mn
      | none => mn
    let msgType := if mt.NumOut = 0 then MessageType.Notify else MessageType.Request
    let handler : Handler :=
      { Method := method, IsRawArg := raw, MessageType := msgType, Typ := none }
    let handler ←
      if mt.NumIn = 3 then do
        let t2 ← mt.In 2
        pure { handler with Typ := some t2 }
      else pure handler
    pure (methods.set mn handler)
  else pure methods

/-- Embedding of `suitableHandlerMethods` (lines 141-175). -/
def suitableHandlerMethods (I : RType → RType → Bool) (typ : OwnerType)
    (nameFunc : Option (String → String)) : Option (GoMap Handler) :=
  (List.range typ.NumMethod).foldlM (handlerLoopBody I typ nameFunc) []

/-! ## Specification-side definitions

The definitions below are not translations of code: they write down what the
specification says, for comparison with the embedding above. -/

/-- The six Remote rules of the specification (section 4.2), as one
proposition about a method signature. -/
def RemoteRules (I : RType → RType → Bool) (m : Method) : Prop :=
  m.PkgPath = "" ∧
  (m.Typ.ins.length = 2 ∨ m.Typ.ins.length = 3) ∧
  (∃ t1, m.Typ.ins[1]? = some t1 ∧ I t1 typeOfContext = true) ∧
  (m.Typ.ins.length = 3 → ∃ t2, m.Typ.ins[2]? = some t2 ∧ I t2 typeOfProtoMsg = true) ∧
  m.Typ.outs.length = 2 ∧
  (∃ o0, m.Typ.outs[0]? = some o0 ∧ o0.kind = Kind.Ptr ∧ I o0 typeOfProtoMsg = true) ∧
  m.Typ.outs[1]? = some typeOfError

/-- The six Handler rules of the specification (section 4.3), as one
proposition about a method signature. -/
def HandlerRules (I : RType → RType → Bool) (m : Method) : Prop :=
  m.PkgPath = "" ∧
  (m.Typ.ins.length = 2 ∨ m.Typ.ins.length = 3) ∧
  (∃ t1, m.Typ.ins[1]? = some t1 ∧ I t1 typeOfContext = true) ∧
  (m.Typ.ins.length = 3 →
    ∃ t2, m.Typ.ins[2]? = some t2 ∧ (t2.kind = Kind.Ptr ∨ t2 = typeOfBytes)) ∧
  (m.Typ.outs.length = 0 ∨ m.Typ.outs.length = 2) ∧
  (m.Typ.outs.length = 2 →
    m.Typ.outs[1]? = some typeOfError ∧
    ∃ o0, m.Typ.outs[0]? = some o0 ∧ (o0 = typeOfBytes ∨ o0.kind = Kind.Ptr))

/-- The public name of a method: the rewrite function applied when one is
supplied, the original name otherwise (section 4.4). -/
def publicName (nameFunc : Option (String → String)) (n : String) : String :=
  match nameFunc with
  | some f => f n
  | none => n

/-- The Remote descriptor of the specification for a method (section 4.4):
`hasArgs` is arity 3 and `argType` is the third input when the arity is 3. -/
def remoteDescriptor (method : Method) : Remote :=
  { Method := method
    HasArgs := decide (method.Typ.ins.length = 3)
    Typ := if method.Typ.ins.length = 3 then method.Typ.ins[2]? else none }

/-- The Handler descriptor of the specification for a method (section 4.5):
`isRawPayload` iff the arity is 3 and the third input is the raw-byte type,
`messageKind` from the output arity, `argType` the third input when the arity
is 3. -/
def handlerDescriptor (method : Method) : Handler :=
  { Method := method
    IsRawArg := decide (method.Typ.ins.length = 3 ∧ method.Typ.ins[2]? = some typeOfBytes)
    MessageType :=
      if method.Typ.outs.length = 0 then MessageType.Notify else MessageType.Request
    Typ := if method.Typ.ins.length = 3 then method.Typ.ins[2]? else none }

/-- The map holding, for the first `n` enumerated methods, the descriptor
`desc` of every method that `accept` takes, under the key `key`, a later
method replacing an earlier one with the same key. -/
def registryUpTo {D : Type} (typ : OwnerType) (accept : Method → Bool)
    (key : Method → String) (desc : Method → D) : Nat → GoMap D
  | 0 => []
  | n + 1 =>
    match typ.Method n with
    | some method =>
      if accept method then
        (registryUpTo typ accept key desc n).set (key method) (desc method)
      else registryUpTo typ accept key desc n
    | none => registryUpTo typ accept key desc n

/-- Among the first `n` enumerated methods, the one of largest index that
`accept` takes and whose key is `k`. -/
def lastAccepted (typ : OwnerType) (accept : Method → Bool) (key : Method → String)
    (k : String) : Nat → Option Method
  | 0 => none
  | n + 1 =>
    match typ.Method n with
    | some method =>
      if accept method ∧ key method = k then some method
      else lastAccepted typ accept key k n
    | none => lastAccepted typ accept key k n

/-- Acceptance by `isRemoteMethod` as a boolean test. -/
def acceptsRemote (I : RType → RType → Bool) (method : Method) : Bool :=
  decide (isRemoteMethod I method = some true)

/-- Acceptance by `isHandlerMethod` as a boolean test. -/
def acceptsHandler (I : RType → RType → Bool) (method : Method) : Bool :=
  decide (isHandlerMethod I method = some true)

/-! ## The end-to-end scenario of the specification (section 8, item 9) -/

/-- The receiver type of the scenario, a pointer to the service struct. -/
def svcType : RType := { name := "*component.Svc", kind := Kind.Ptr }

/-- The type `*Req`. -/
def reqType : RType := { name := "*component.Req", kind := Kind.Ptr }

/-- The type `*Resp`. -/
def respType : RType := { name := "*component.Resp", kind := Kind.Ptr }

/-- The type `*Pong`. -/
def pongType : RType := { name := "*component.Pong", kind := Kind.Ptr }

/-- The type `*Msg`. -/
def msgType : RType := { name := "*component.Msg", kind := Kind.Ptr }

/-- The type `*Evt`. -/
def evtType : RType := { name := "*component.Evt", kind := Kind.Ptr }

/-- The capabilities of the scenario: `context.Context` implements the context
capability, the five message pointer types implement the structured-message
capability, and nothing else (so not the raw-byte type) does. -/
def scenarioImplements (t u : RType) : Bool :=
  (decide (u = typeOfContext) && decide (t = typeOfContext)) ||
  (decide (u = typeOfProtoMsg) &&
    decide (t ∈ [reqType, respType, pongType, msgType, evtType]))

/-- The scenario type: `GetItem(ctx, *Req) (*Resp, error)`,
`OnEvent(ctx, *Evt)`, `OnRaw(ctx, []byte) ([]byte, error)`,
`Ping(ctx) (*Pong, error)` and the unexported `notify(ctx, *Msg)`, in the order
of Go's method tables (exported methods by name, then unexported ones). -/
def scenarioType : OwnerType :=
  { decls :=
      [ { Name := "GetItem", PkgPath := ""
          Typ := { ins := [svcType, typeOfContext, reqType]
                   outs := [respType, typeOfError] } },
        { Name := "OnEvent", PkgPath := ""
          Typ := { ins := [svcType, typeOfContext, evtType], outs := [] } },
        { Name := "OnRaw", PkgPath := ""
          Typ := { ins := [svcType, typeOfContext, typeOfBytes]
                   outs := [typeOfBytes, typeOfError] } },
        { Name := "Ping", PkgPath := ""
          Typ := { ins := [svcType, typeOfContext], outs := [pongType, typeOfError] } },
        { Name := "notify", PkgPath := "component"
          Typ := { ins := [svcType, typeOfContext, msgType], outs := [] } } ] }

/-- A rewrite function that upper-cases names. -/
def upperName (s : String) : String := String.mk (s.data.map Char.toUpper)

/-- A type with one method named `foo` whose package path is empty, shaped
`foo(ctx) (*Pong, error)`: the accepted operation named "foo" of the
rewrite example (section 8, item 7). -/
def fooType : OwnerType :=
  { decls :=
      [ { Name := "foo", PkgPath := ""
          Typ := { ins := [svcType, typeOfContext], outs := [pongType, typeOfError] } } ] }

/-- A type with two methods whose names differ only in case, `Load(ctx, *Req)
(*Resp, error)` and `load(ctx) (*Pong, error)`, both with an empty package
path, so that `upperName` sends both to the key `LOAD`. -/
def collidingType : OwnerType :=
  { decls :=
      [ { Name := "Load", PkgPath := ""
          Typ := { ins := [svcType, typeOfContext, reqType]
                   outs := [respType, typeOfError] } },
        { Name := "load", PkgPath := ""
          Typ := { ins := [svcType, typeOfContext], outs := [pongType, typeOfError] } } ] }

/-! ## Export visibility check (lines 40-44)

A Go string is a sequence of bytes; a name is represented by the list of its
bytes. `utf8.DecodeRuneInString` and `unicode.IsUpper` belong to Go's standard
library: the decoder is written out after the library's algorithm, and the
Unicode upper-case classification, a table of the library, is the parameter
`IsUpper`. -/

/-- The constant `utf8.RuneError`, the replacement character U+FFFD. -/
def RuneError : Nat := 0xFFFD

/-- The table `first` of package `utf8`: information about the first byte of
an encoding (`0xF0` ASCII, `0xF1` invalid, otherwise the size in the low bits
and the index of the accept range of the second byte in the high bits). -/
def utf8First (b : Nat) : Nat :=
  if b < 0x80 then 0xF0
  else if b < 0xC2 then 0xF1
  else if b < 0xE0 then 0x02
  else if b = 0xE0 then 0x13
  else if b < 0xED then 0x03
  else if b = 0xED then 0x23
  else if b < 0xF0 then 0x03
  else if b = 0xF0 then 0x34
  else if b < 0xF4 then 0x04
  else if b = 0xF4 then 0x44
  else 0xF1

/-- The table `acceptRanges` of package `utf8`: the bounds `(lo, hi)` of the
second byte. -/
def acceptRanges (i : Nat) : Nat × Nat :=
  match i with
  | 0 => (0x80, 0xBF)
  | 1 => (0xA0, 0xBF)
  | 2 => (0x80, 0x9F)
  | 3 => (0x90, 0xBF)
  | 4 => (0x80, 0x8F)
  | _ => (0, 0)

/-- Go's `utf8.DecodeRuneInString`: the first code point of `s` and the width
of its encoding in bytes; `(RuneError, 0)` on the empty string and
`(RuneError, 1)` on an invalid encoding. The bytes `s[0]`, ..., `s[3]` are read
where the library reads them; `none` stands for an index out of range. On
`x >= as` the library selects between the byte and `RuneError` with a mask
computed from `x`; that selection is written here as a case distinction. -/
def DecodeRuneInString (s : List Nat) : Option (Nat × Nat) :=
  let n := s.length
  if n < 1 then some (RuneError, 0)
  else do
    let s0 ← s[0]?
    let x := utf8First s0
    if x ≥ 0xF0 then
      if x = 0xF0 then some (s0, 1) else some (RuneError, 1)
    else
      let sz := x &&& 7
      let accept := acceptRanges (x >>> 4)
      if n < sz then some (RuneError, 1)
      else do
        let s1 ← s[1]?
        if s1 < accept.1 ∨ accept.2 < s1 then some (RuneError, 1)
        else if sz ≤ 2 then some (((s0 &&& 0x1F) <<< 6) ||| (s1 &&& 0x3F), 2)
        else do
          let s2 ← s[2]?
          if s2 < 0x80 ∨ 0xBF < s2 then some (RuneError, 1)
          else if sz ≤ 3 then
            some ((((s0 &&& 0x0F) <<< 12) ||| ((s1 &&& 0x3F) <<< 6)) ||| (s2 &&& 0x3F), 3)
          else do
            let s3 ← s[3]?
            if s3 < 0x80 ∨ 0xBF < s3 then some (RuneError, 1)
            else
              some (((((s0 &&& 0x07) <<< 18) ||| ((s1 &&& 0x3F) <<< 12)) |||
                ((s2 &&& 0x3F) <<< 6)) ||| (s3 &&& 0x3F), 4)

/-- Embedding of `isExported` (lines 41-44): the first rune of the name is
decoded and classified; `none` stands for a panic of the decoder. -/
def isExported (IsUpper : Nat → Bool) (name : List Nat) : Option Bool := do
  let (w, _) ← DecodeRuneInString name
  pure (IsUpper w)

/-- A Unicode scalar value: a code point up to U+10FFFF outside the surrogate
range. -/
def isScalarValue (c : Nat) : Prop := c < 0xD800 ∨ (0xE000 ≤ c ∧ c < 0x110000)

/-- The UTF-8 encoding of a code point, as the standard defines it: one to
four bytes. -/
def utf8Encode (c : Nat) : List Nat :=
  if c < 0x80 then [c]
  else if c < 0x800 then [0xC0 + c / 64, 0x80 + c % 64]
  else if c < 0x10000 then [0xE0 + c / 4096, 0x80 + c / 64 % 64, 0x80 + c % 64]
  else [0xF0 + c / 262144, 0x80 + c / 4096 % 64, 0x80 + c / 64 % 64, 0x80 + c % 64]

/-- The upper-case letters of ASCII and Latin-1 (`A`-`Z`, `À`-`Ö`, `Ø`-`Þ`), a
classification that agrees with Unicode up to U+00FF and takes nothing
beyond; it serves as a concrete classification in examples. -/
def latin1IsUpper (c : Nat) : Bool :=
  (decide (0x41 ≤ c) && decide (c ≤ 0x5A)) ||
  (decide (0xC0 ≤ c) && decide (c ≤ 0xD6)) ||
  (decide (0xD8 ≤ c) && decide (c ≤ 0xDE))

/-- One visit of the registry construction: the descriptor of an accepted
method is stored under its key, a rejected method leaves the map as it is. -/
def registryStep {D : Type} (accept : Method → Bool) (key : Method → String)
    (desc : Method → D) (acc : GoMap D) (m : Method) : GoMap D :=
  if accept m then acc.set (key m) (desc m) else acc

/-- The map obtained by visiting the methods `ms` in the order of the list,
starting from `acc`. -/
def registryOfList {D : Type} (accept : Method → Bool) (key : Method → String)
    (desc : Method → D) (ms : List Method) (acc : GoMap D) : GoMap D :=
  ms.foldl (registryStep accept key desc) acc

/-- The methods of a type in enumeration order, `typ.Method(0)`, ...,
`typ.Method(typ.NumMethod() - 1)`. -/
def enumerate (typ : OwnerType) : List Method :=
  (List.range typ.NumMethod).filterMap typ.Method

/-- The number of enumerated methods that `accept` takes. -/
def acceptedCount (typ : OwnerType) (accept : Method → Bool) : Nat :=
  (enumerate typ).countP accept

/-- The capabilities of the scenario, extended so that the interface type
`proto.Message` itself implements the structured-message capability. -/
def scenarioImplementsIface (t u : RType) : Bool :=
  scenarioImplements t u || (decide (t = typeOfProtoMsg) && decide (u = typeOfProtoMsg))

/-! ## The predicates against the rules -/

theorem isRemoteMethod_eq_true_iff (I : RType → RType → Bool) (m : Method) :
    isRemoteMethod I m = some true ↔ RemoteRules I m := by
  obtain ⟨n, p, ⟨ins, outs⟩, ix⟩ := m
  unfold isRemoteMethod RemoteRules
  simp only [FuncType.NumIn, FuncType.NumOut, FuncType.In, FuncType.Out]
  by_cases hp : p = ""
  · rcases ins with _ | ⟨a, _ | ⟨b, _ | ⟨c, _ | ⟨d, rest⟩⟩⟩⟩ <;>
    rcases outs with _ | ⟨x, _ | ⟨y, _ | ⟨z, rest2⟩⟩⟩ <;>
    simp [hp] <;> split_ifs <;> simp_all
  · simp [hp]

theorem isRemoteMethod_total (I : RType → RType → Bool) (m : Method) :
    ∃ b, isRemoteMethod I m = some b := by
  obtain ⟨n, p, ⟨ins, outs⟩, ix⟩ := m
  unfold isRemoteMethod
  simp only [FuncType.NumIn, FuncType.NumOut, FuncType.In, FuncType.Out]
  by_cases hp : p = ""
  · rcases ins with _ | ⟨a, _ | ⟨b, _ | ⟨c, _ | ⟨d, rest⟩⟩⟩⟩ <;>
    rcases outs with _ | ⟨x, _ | ⟨y, _ | ⟨z, rest2⟩⟩⟩ <;>
    simp [hp] <;> split_ifs <;> simp_all
  · simp [hp]

theorem isHandlerMethod_eq_true_iff (I : RType → RType → Bool) (m : Method) :
    isHandlerMethod I m = some true ↔ HandlerRules I m := by
  obtain ⟨n, p, ⟨ins, outs⟩, ix⟩ := m
  unfold isHandlerMethod HandlerRules
  simp only [FuncType.NumIn, FuncType.NumOut, FuncType.In, FuncType.Out]
  by_cases hp : p = ""
  · rcases ins with _ | ⟨a, _ | ⟨b, _ | ⟨c, _ | ⟨d, rest⟩⟩⟩⟩ <;>
    rcases outs with _ | ⟨x, _ | ⟨y, _ | ⟨z, rest2⟩⟩⟩ <;>
    simp [hp] <;> split_ifs <;> simp_all
  · simp [hp]

theorem isHandlerMethod_total (I : RType → RType → Bool) (m : Method) :
    ∃ b, isHandlerMethod I m = some b := by
  obtain ⟨n, p, ⟨ins, outs⟩, ix⟩ := m
  unfold isHandlerMethod
  simp only [FuncType.NumIn, FuncType.NumOut, FuncType.In, FuncType.Out]
  by_cases hp : p = ""
  · rcases ins with _ | ⟨a, _ | ⟨b, _ | ⟨c, _ | ⟨d, rest⟩⟩⟩⟩ <;>
    rcases outs with _ | ⟨x, _ | ⟨y, _ | ⟨z, rest2⟩⟩⟩ <;>
    simp [hp] <;> split_ifs <;> simp_all
  · simp [hp]

/-! ## Maps -/

theorem GoMap.get_filter_ne {V : Type} (m : GoMap V) (k k' : String) :
    GoMap.get (m.filter (fun e => !decide (e.1 = k))) k' =
      if k' = k then none else GoMap.get m k' := by
  induction m with
  | nil => simp [GoMap.get]
  | cons e m ih =>
    obtain ⟨a, v⟩ := e
    by_cases ha : a = k
    · subst ha
      by_cases hk : k' = a
      · simpa [List.filter_cons, hk] using ih
      · simpa [List.filter_cons, hk, GoMap.get] using ih
    · by_cases hk : k' = k
      · subst hk
        have hak : ¬ k' = a := fun h => ha h.symm
        simpa [List.filter_cons, ha, GoMap.get, hak] using ih
      · by_cases hka : k' = a
        · simp [List.filter_cons, ha, GoMap.get, hka]
        · simpa [List.filter_cons, ha, GoMap.get, hk, hka] using ih

theorem GoMap.get_set {V : Type} (m : GoMap V) (k k' : String) (v : V) :
    GoMap.get (m.set k v) k' = if k' = k then some v else GoMap.get m k' := by
  unfold GoMap.set
  by_cases hk : k' = k
  · simp [GoMap.get, hk]
  · simp [GoMap.get, hk, GoMap.get_filter_ne]

theorem GoMap.set_set {V : Type} (m : GoMap V) (k : String) (v w : V) :
    (m.set k v).set k w = m.set k w := by
  simp [GoMap.set, List.filter_cons, List.filter_filter]

theorem GoMap.mem_keys_iff {V : Type} (m : GoMap V) (k : String) :
    k ∈ m.keys ↔ ∃ v, GoMap.get m k = some v := by
  induction m with
  | nil => simp [GoMap.keys, GoMap.get]
  | cons e m ih =>
    obtain ⟨a, v⟩ := e
    by_cases hk : k = a
    · simp [GoMap.keys, GoMap.get, hk]
    · simp only [GoMap.keys] at ih
      simp [GoMap.keys, GoMap.get, hk, ih]

/-! ## The loop bodies -/

theorem remoteLoopBody_eq (I : RType → RType → Bool) (typ : OwnerType)
    (nameFunc : Option (String → String)) (methods : GoMap Remote) (m : Nat)
    (method : Method) (hm : typ.Method m = some method) :
    remoteLoopBody I typ nameFunc methods m =
      some (if acceptsRemote I method then
        methods.set (publicName nameFunc method.Name) (remoteDescriptor method)
      else methods) := by
  obtain ⟨b, hb⟩ := isRemoteMethod_total I method
  cases b with
  | false => simp [remoteLoopBody, hm, hb, acceptsRemote]
  | true =>
    have hr := (isRemoteMethod_eq_true_iff I method).1 hb
    obtain ⟨-, hlen, -, h3, -⟩ := hr
    by_cases h : method.Typ.ins.length = 3
    · obtain ⟨t2, ht2, -⟩ := h3 h
      simp [remoteLoopBody, hm, hb, acceptsRemote, FuncType.NumIn, FuncType.In, h, ht2,
        GoMap.get_set, GoMap.set_set, publicName, remoteDescriptor]
    · simp [remoteLoopBody, hm, hb, acceptsRemote, FuncType.NumIn, h, publicName,
        remoteDescriptor]

theorem handlerLoopBody_eq (I : RType → RType → Bool) (typ : OwnerType)
    (nameFunc : Option (String → String)) (methods : GoMap Handler) (m : Nat)
    (method : Method) (hm : typ.Method m = some method) :
    handlerLoopBody I typ nameFunc methods m =
      some (if acceptsHandler I method then
        methods.set (publicName nameFunc method.Name) (handlerDescriptor method)
      else methods) := by
  obtain ⟨b, hb⟩ := isHandlerMethod_total I method
  cases b with
  | false => simp [handlerLoopBody, hm, hb, acceptsHandler]
  | true =>
    have hr := (isHandlerMethod_eq_true_iff I method).1 hb
    obtain ⟨-, hlen, -, h3, -⟩ := hr
    by_cases h : method.Typ.ins.length = 3
    · obtain ⟨t2, ht2, -⟩ := h3 h
      simp [handlerLoopBody, hm, hb, acceptsHandler, FuncType.NumIn, FuncType.NumOut,
        FuncType.In, h, ht2, publicName, handlerDescriptor]
    · simp [handlerLoopBody, hm, hb, acceptsHandler, FuncType.NumIn, FuncType.NumOut, h,
        publicName, handlerDescriptor]

theorem method_isSome_of_lt (typ : OwnerType) (i : Nat) (h : i < typ.NumMethod) :
    ∃ method, typ.Method i = some method := by
  unfold OwnerType.Method OwnerType.NumMethod at *
  simp [List.getElem?_eq_getElem h]

theorem method_lt_numMethod (typ : OwnerType) (i : Nat) (method : Method)
    (h : typ.Method i = some method) : i < typ.NumMethod := by
  unfold OwnerType.Method OwnerType.NumMethod at *
  by_contra hn
  simp [List.getElem?_eq_none (Nat.le_of_not_lt hn)] at h

theorem method_index_eq (typ : OwnerType) (i : Nat) (method : Method)
    (h : typ.Method i = some method) : method.Index = i := by
  unfold OwnerType.Method at h
  cases hd : typ.decls[i]? with
  | none => simp [hd] at h
  | some d =>
    simp [hd] at h
    rw [← h]

/-- The loop over the first `n` indices. -/
theorem foldlM_range_eq_registryUpTo {D : Type} (typ : OwnerType)
    (body : GoMap D → Nat → Option (GoMap D)) (accept : Method → Bool)
    (key : Method → String) (desc : Method → D)
    (hbody : ∀ methods m method, typ.Method m = some method →
      body methods m =
        some (if accept method then methods.set (key method) (desc method) else methods))
    (n : Nat) (hn : n ≤ typ.NumMethod) :
    (List.range n).foldlM body [] = some (registryUpTo typ accept key desc n) := by
  induction n with
  | zero => simp [registryUpTo]
  | succ n ih =>
    obtain ⟨method, hm⟩ := method_isSome_of_lt typ n (by omega)
    rw [List.range_succ, List.foldlM_append, ih (by omega)]
    simp [registryUpTo, hm, hbody _ _ _ hm]

theorem suitableRemoteMethods_eq (I : RType → RType → Bool) (typ : OwnerType)
    (nameFunc : Option (String → String)) :
    suitableRemoteMethods I typ nameFunc =
      some (registryUpTo typ (acceptsRemote I) (fun m => publicName nameFunc m.Name)
        remoteDescriptor typ.NumMethod) :=
  foldlM_range_eq_registryUpTo typ _ _ _ _
    (fun methods m method hm => remoteLoopBody_eq I typ nameFunc methods m method hm)
    typ.NumMethod (Nat.le_refl _)

theorem suitableHandlerMethods_eq (I : RType → RType → Bool) (typ : OwnerType)
    (nameFunc : Option (String → String)) :
    suitableHandlerMethods I typ nameFunc =
      some (registryUpTo typ (acceptsHandler I) (fun m => publicName nameFunc m.Name)
        handlerDescriptor typ.NumMethod) :=
  foldlM_range_eq_registryUpTo typ _ _ _ _
    (fun methods m method hm => handlerLoopBody_eq I typ nameFunc methods m method hm)
    typ.NumMethod (Nat.le_refl _)

/-! ## The registry as a function of the enumeration -/

theorem get_registryUpTo {D : Type} (typ : OwnerType) (accept : Method → Bool)
    (key : Method → String) (desc : Method → D) (k : String) (n : Nat) :
    GoMap.get (registryUpTo typ accept key desc n) k =
      (lastAccepted typ accept key k n).map desc := by
  induction n with
  | zero => simp [registryUpTo, lastAccepted, GoMap.get]
  | succ n ih =>
    cases hm : typ.Method n with
    | none => simp [registryUpTo, lastAccepted, hm, ih]
    | some method =>
      by_cases ha : accept method = true
      · by_cases hk : key method = k
        · simp [registryUpTo, lastAccepted, hm, ha, hk, GoMap.get_set]
        · have hk2 : ¬ k = key method := fun h => hk h.symm
          simp [registryUpTo, lastAccepted, hm, ha, hk, hk2, GoMap.get_set, ih]
      · simp [registryUpTo, lastAccepted, hm, ha, ih]

theorem lastAccepted_some {typ : OwnerType} {accept : Method → Bool}
    {key : Method → String} {k : String} {n : Nat} {method : Method}
    (h : lastAccepted typ accept key k n = some method) :
    ∃ i, i < n ∧ typ.Method i = some method ∧ accept method = true ∧ key method = k ∧
      ∀ j m2, i < j → j < n → typ.Method j = some m2 → accept m2 = true → key m2 ≠ k := by
  induction n with
  | zero => simp [lastAccepted] at h
  | succ n ih =>
    by_cases hnow : ∃ m2, typ.Method n = some m2 ∧ accept m2 = true ∧ key m2 = k
    · obtain ⟨m2, hm2, hacc2, hkey2⟩ := hnow
      have hEq : m2 = method := by simpa [lastAccepted, hm2, hacc2, hkey2] using h
      subst hEq
      refine ⟨n, by omega, hm2, hacc2, hkey2, ?_⟩
      intro j m3 hij hj
      omega
    · have hprev : lastAccepted typ accept key k n = some method := by
        cases hm : typ.Method n with
        | none => simpa [lastAccepted, hm] using h
        | some m2 =>
          have hno : ¬ (accept m2 = true ∧ key m2 = k) := fun hc => hnow ⟨m2, hm, hc⟩
          simpa [lastAccepted, hm, hno] using h
      obtain ⟨i, hi, hmi, hacc, hkey, hlater⟩ := ih hprev
      refine ⟨i, by omega, hmi, hacc, hkey, ?_⟩
      intro j m3 hij hj hmj hacc3 hkey3
      by_cases hjn : j < n
      · exact hlater j m3 hij hjn hmj hacc3 hkey3
      · have hjeq : j = n := by omega
        subst hjeq
        exact hnow ⟨m3, hmj, hacc3, hkey3⟩

theorem lastAccepted_of_last {typ : OwnerType} {accept : Method → Bool}
    {key : Method → String} {k : String} {n i : Nat} {method : Method}
    (hi : i < n) (hmi : typ.Method i = some method) (hacc : accept method = true)
    (hkey : key method = k)
    (hlater : ∀ j m2, i < j → j < n → typ.Method j = some m2 → accept m2 = true →
      key m2 ≠ k) :
    lastAccepted typ accept key k n = some method := by
  induction n with
  | zero => omega
  | succ n ih =>
    by_cases hin : i = n
    · subst hin
      simp [lastAccepted, hmi, hacc, hkey]
    · have hprev := ih (by omega)
        (fun j m2 hij hj hmj hacc2 => hlater j m2 hij (by omega) hmj hacc2)
      cases hm : typ.Method n with
      | none => simpa [lastAccepted, hm] using hprev
      | some m2 =>
        have hno : ¬ (accept m2 = true ∧ key m2 = k) :=
          fun hc => hlater n m2 (by omega) (by omega) hm hc.1 hc.2
        simpa [lastAccepted, hm, hno] using hprev

theorem lastAccepted_isSome {typ : OwnerType} {accept : Method → Bool}
    {key : Method → String} {k : String} {n i : Nat} {method : Method}
    (hi : i < n) (hmi : typ.Method i = some method) (hacc : accept method = true)
    (hkey : key method = k) :
    ∃ m2, lastAccepted typ accept key k n = some m2 := by
  induction n with
  | zero => omega
  | succ n ih =>
    by_cases hin : i = n
    · subst hin
      exact ⟨method, by simp [lastAccepted, hmi, hacc, hkey]⟩
    · obtain ⟨m2, hprev⟩ := ih (by omega)
      cases hm : typ.Method n with
      | none => exact ⟨m2, by simpa [lastAccepted, hm] using hprev⟩
      | some m3 =>
        by_cases hc : accept m3 = true ∧ key m3 = k
        · exact ⟨m3, by simp [lastAccepted, hm, hc]⟩
        · exact ⟨m2, by simpa [lastAccepted, hm, hc] using hprev⟩

theorem registry_get_some {D : Type} {typ : OwnerType} {accept : Method → Bool}
    {key : Method → String} {desc : Method → D} {k : String} {n : Nat} {d : D}
    (h : GoMap.get (registryUpTo typ accept key desc n) k = some d) :
    ∃ i method, i < n ∧ typ.Method i = some method ∧ accept method = true ∧
      key method = k ∧ d = desc method := by
  rw [get_registryUpTo] at h
  cases hl : lastAccepted typ accept key k n with
  | none => simp [hl] at h
  | some method =>
    obtain ⟨i, hi, hmi, hacc, hkey, -⟩ := lastAccepted_some hl
    refine ⟨i, method, hi, hmi, hacc, hkey, ?_⟩
    simpa [hl] using h.symm

theorem registry_get_of_last {D : Type} {typ : OwnerType} {accept : Method → Bool}
    {key : Method → String} (desc : Method → D) {i : Nat} {method : Method}
    (hmi : typ.Method i = some method) (hacc : accept method = true)
    (hlater : ∀ j m2, i < j → typ.Method j = some m2 → accept m2 = true →
      key m2 ≠ key method) :
    GoMap.get (registryUpTo typ accept key desc typ.NumMethod) (key method) =
      some (desc method) := by
  rw [get_registryUpTo,
    lastAccepted_of_last (method_lt_numMethod typ i method hmi) hmi hacc rfl
      (fun j m2 hij _ hmj hacc2 => hlater j m2 hij hmj hacc2)]
  rfl

theorem registry_get_isSome {D : Type} {typ : OwnerType} {accept : Method → Bool}
    {key : Method → String} (desc : Method → D) {i : Nat} {method : Method}
    (hmi : typ.Method i = some method) (hacc : accept method = true) :
    ∃ d, GoMap.get (registryUpTo typ accept key desc typ.NumMethod) (key method) =
      some d := by
  obtain ⟨m2, h2⟩ := @lastAccepted_isSome typ accept key (key method) typ.NumMethod i method
    (method_lt_numMethod typ i method hmi) hmi hacc rfl
  exact ⟨desc m2, by rw [get_registryUpTo, h2]; rfl⟩

theorem registryUpTo_eq_nil {D : Type} {typ : OwnerType} {accept : Method → Bool}
    {key : Method → String} {desc : Method → D}
    (hnone : ∀ i method, typ.Method i = some method → accept method = false) (n : Nat) :
    registryUpTo typ accept key desc n = [] := by
  induction n with
  | zero => rfl
  | succ n ih =>
    cases hm : typ.Method n with
    | none => simp [registryUpTo, hm, ih]
    | some method => simp [registryUpTo, hm, ih, hnone n method hm]

theorem acceptsRemote_iff (I : RType → RType → Bool) (method : Method) :
    acceptsRemote I method = true ↔ isRemoteMethod I method = some true := by
  simp [acceptsRemote]

theorem acceptsHandler_iff (I : RType → RType → Bool) (method : Method) :
    acceptsHandler I method = true ↔ isHandlerMethod I method = some true := by
  simp [acceptsHandler]

/-! ## The claims -/

/-- C1: `isRemoteMethod` returns true if and only if the six Remote rules hold
together (exported, 2 or 3 inputs, second input implements the context
capability, third input when present implements the structured-message
capability, exactly 2 outputs, first output pointer-kinded and implementing the
structured-message capability, second output exactly the error type), and it
returns false otherwise; in particular a method returning `(value, error)`
whose value is not a pointer-kinded structured-message type is rejected. -/
theorem isRemoteMethod_iff_remoteRules (I : RType → RType → Bool) (m : Method) :
    (isRemoteMethod I m = some true ↔ RemoteRules I m) ∧
    (isRemoteMethod I m = some false ↔ ¬ RemoteRules I m) ∧
    (∀ v, m.Typ.outs = [v, typeOfError] →
      ¬ (v.kind = Kind.Ptr ∧ I v typeOfProtoMsg = true) →
      isRemoteMethod I m = some false) := by
  have hiff := isRemoteMethod_eq_true_iff I m
  have hfalse : isRemoteMethod I m = some false ↔ ¬ RemoteRules I m := by
    obtain ⟨b, hb⟩ := isRemoteMethod_total I m
    rw [← hiff, hb]
    cases b <;> simp
  refine ⟨hiff, hfalse, ?_⟩
  intro v hv hnot
  rw [hfalse]
  intro hr
  obtain ⟨-, -, -, -, -, ⟨o0, ho0, hk, hi⟩, -⟩ := hr
  rw [hv] at ho0
  simp at ho0
  subst ho0
  exact hnot ⟨hk, hi⟩

/-- C2: `isHandlerMethod` returns true if and only if the six Handler rules
hold together (exported, 2 or 3 inputs, second input implements the context
capability, third input when present pointer-kinded or exactly the raw-byte
type, 0 or 2 outputs, and with 2 outputs the second is exactly the error type
and the first is the raw-byte type or pointer-kinded), and it returns false
otherwise. -/
theorem isHandlerMethod_iff_handlerRules (I : RType → RType → Bool) (m : Method) :
    (isHandlerMethod I m = some true ↔ HandlerRules I m) ∧
    (isHandlerMethod I m = some false ↔ ¬ HandlerRules I m) := by
  have hiff := isHandlerMethod_eq_true_iff I m
  refine ⟨hiff, ?_⟩
  obtain ⟨b, hb⟩ := isHandlerMethod_total I m
  rw [← hiff, hb]
  cases b <;> simp

/-- C3, as stated, fails: on the scenario type the Handler mapping does not
have the key set `{OnRaw, OnEvent}`, because `GetItem` is a key as well. -/
theorem handler_registry_of_scenario_has_getItem :
    ¬ ∃ mp, suitableHandlerMethods scenarioImplements scenarioType none = some mp ∧
      ∀ k, k ∈ GoMap.keys mp ↔ (k = "OnRaw" ∨ k = "OnEvent") := by
  rintro ⟨mp, hmp, hkeys⟩
  have hval : suitableHandlerMethods scenarioImplements scenarioType none =
      some [("Ping", handlerDescriptor
              { Name := "Ping", PkgPath := "", Index := 3
                Typ := { ins := [svcType, typeOfContext]
                         outs := [pongType, typeOfError] } }),
            ("OnRaw", handlerDescriptor
              { Name := "OnRaw", PkgPath := "", Index := 2
                Typ := { ins := [svcType, typeOfContext, typeOfBytes]
                         outs := [typeOfBytes, typeOfError] } }),
            ("OnEvent", handlerDescriptor
              { Name := "OnEvent", PkgPath := "", Index := 1
                Typ := { ins := [svcType, typeOfContext, evtType], outs := [] } }),
            ("GetItem", handlerDescriptor
              { Name := "GetItem", PkgPath := "", Index := 0
                Typ := { ins := [svcType, typeOfContext, reqType]
                         outs := [respType, typeOfError] } })] := by
    decide
  rw [hval] at hmp
  have hmp2 := Option.some.inj hmp
  subst hmp2
  have hget := (hkeys "GetItem").1 (by simp [GoMap.keys])
  revert hget
  decide

/-- C3, amended: on the scenario type (whatever the capabilities of the message
types, as long as `context.Context` implements the context capability) and with
no rewrite function, `suitableHandlerMethods` yields a mapping whose key set is
exactly `{GetItem, OnEvent, OnRaw, Ping}`: the two Remote-shaped methods take
and return pointers and so are Handlers too; only the unexported `notify` is
left out. -/
theorem scenario_handler_keys (I : RType → RType → Bool)
    (hctx : I typeOfContext typeOfContext = true) :
    ∃ mp, suitableHandlerMethods I scenarioType none = some mp ∧
      ∀ k, k ∈ GoMap.keys mp ↔
        (k = "GetItem" ∨ k = "OnEvent" ∨ k = "OnRaw" ∨ k = "Ping") := by
  refine ⟨_, suitableHandlerMethods_eq I scenarioType none, ?_⟩
  intro k
  simp only [typeOfContext] at hctx
  simp [registryUpTo, OwnerType.NumMethod, OwnerType.Method, scenarioType, acceptsHandler,
    isHandlerMethod, FuncType.NumIn, FuncType.NumOut, FuncType.In, FuncType.Out, hctx,
    publicName, GoMap.set, GoMap.keys, List.filter_cons, svcType, reqType, respType,
    pongType, evtType, msgType, typeOfBytes, typeOfError, typeOfContext]
  tauto

/-- Instance of the amended C3 at the capabilities of the scenario. -/
theorem scenario_handler_keys_witness :
    scenarioImplements typeOfContext typeOfContext = true ∧
    ∃ mp, suitableHandlerMethods scenarioImplements scenarioType none = some mp ∧
      ∀ k, k ∈ GoMap.keys mp ↔
        (k = "GetItem" ∨ k = "OnEvent" ∨ k = "OnRaw" ∨ k = "Ping") :=
  ⟨by decide, scenario_handler_keys scenarioImplements (by decide)⟩

/-- C4: on the scenario type, with no rewrite function, with `context.Context`
implementing the context capability, `*Req`, `*Resp` and `*Pong` implementing
the structured-message capability and the raw-byte type not implementing it,
`suitableRemoteMethods` yields a mapping whose key set is exactly
`{GetItem, Ping}`; the entry of `GetItem` has `hasArgs = true` and
`argType = *Req`, the entry of `Ping` has `hasArgs = false` and no `argType`. -/
theorem scenario_remote_registry (I : RType → RType → Bool)
    (hctx : I typeOfContext typeOfContext = true)
    (hreq : I reqType typeOfProtoMsg = true)
    (hresp : I respType typeOfProtoMsg = true)
    (hpong : I pongType typeOfProtoMsg = true)
    (hbytes : I typeOfBytes typeOfProtoMsg = false) :
    ∃ mp, suitableRemoteMethods I scenarioType none = some mp ∧
      (∀ k, k ∈ GoMap.keys mp ↔ (k = "GetItem" ∨ k = "Ping")) ∧
      (∃ r, GoMap.get mp "GetItem" = some r ∧ r.Method.Name = "GetItem" ∧
        r.HasArgs = true ∧ r.Typ = some reqType) ∧
      (∃ r, GoMap.get mp "Ping" = some r ∧ r.Method.Name = "Ping" ∧
        r.HasArgs = false ∧ r.Typ = none) := by
  refine ⟨_, suitableRemoteMethods_eq I scenarioType none, ?_⟩
  simp only [typeOfContext, typeOfProtoMsg, reqType, respType, pongType, typeOfBytes]
    at hctx hreq hresp hpong hbytes
  have hreg : registryUpTo scenarioType (acceptsRemote I)
      (fun m => publicName none m.Name) remoteDescriptor scenarioType.NumMethod =
      [("Ping", remoteDescriptor
          { Name := "Ping", PkgPath := "", Index := 3
            Typ := { ins := [svcType, typeOfContext], outs := [pongType, typeOfError] } }),
       ("GetItem", remoteDescriptor
          { Name := "GetItem", PkgPath := "", Index := 0
            Typ := { ins := [svcType, typeOfContext, reqType]
                     outs := [respType, typeOfError] } })] := by
    simp [registryUpTo, OwnerType.NumMethod, OwnerType.Method, scenarioType, acceptsRemote,
      isRemoteMethod, FuncType.NumIn, FuncType.NumOut, FuncType.In, FuncType.Out, hctx,
      hreq, hresp, hpong, hbytes, publicName, GoMap.set, List.filter_cons, svcType,
      reqType, respType, pongType, evtType, msgType, typeOfBytes, typeOfError,
      typeOfContext, typeOfProtoMsg]
  rw [hreg]
  refine ⟨?_, ?_, ?_⟩
  · intro k
    simp [GoMap.keys]
    tauto
  · exact ⟨_, by simp [GoMap.get]; rfl, by simp [remoteDescriptor],
      by simp [remoteDescriptor], by simp [remoteDescriptor]⟩
  · exact ⟨_, by simp [GoMap.get]; rfl, by simp [remoteDescriptor],
      by simp [remoteDescriptor], by simp [remoteDescriptor]⟩

/-- Instance of C4 at the capabilities of the scenario. -/
theorem scenario_remote_registry_witness :
    scenarioImplements typeOfBytes typeOfProtoMsg = false ∧
    ∃ mp, suitableRemoteMethods scenarioImplements scenarioType none = some mp ∧
      (∀ k, k ∈ GoMap.keys mp ↔ (k = "GetItem" ∨ k = "Ping")) ∧
      (∃ r, GoMap.get mp "GetItem" = some r ∧ r.Method.Name = "GetItem" ∧
        r.HasArgs = true ∧ r.Typ = some reqType) ∧
      (∃ r, GoMap.get mp "Ping" = some r ∧ r.Method.Name = "Ping" ∧
        r.HasArgs = false ∧ r.Typ = none) :=
  ⟨by decide, scenario_remote_registry scenarioImplements (by decide) (by decide)
    (by decide) (by decide) (by decide)⟩

/-- C5: with no rewrite function, for every owning type both builders return a
mapping (they never fail, whatever the rewrite function); a name is a key of
the mapping if and only if the type has an enumerated method of that name that
the predicate accepts; every stored descriptor belongs to an enumerated method
that the predicate accepts, so a rejected method contributes no entry; and the
mapping is empty when no method is accepted. -/
theorem suitable_keys_iff_accepted (I : RType → RType → Bool) (typ : OwnerType) :
    (∃ mp, suitableRemoteMethods I typ none = some mp ∧
      (∀ n, n ∈ GoMap.keys mp ↔
        ∃ i method, typ.Method i = some method ∧ method.Name = n ∧
          isRemoteMethod I method = some true) ∧
      (∀ k r, GoMap.get mp k = some r →
        ∃ i, typ.Method i = some r.Method ∧ isRemoteMethod I r.Method = some true) ∧
      ((∀ i method, typ.Method i = some method → isRemoteMethod I method ≠ some true) →
        mp = [])) ∧
    (∃ mp, suitableHandlerMethods I typ none = some mp ∧
      (∀ n, n ∈ GoMap.keys mp ↔
        ∃ i method, typ.Method i = some method ∧ method.Name = n ∧
          isHandlerMethod I method = some true) ∧
      (∀ k h, GoMap.get mp k = some h →
        ∃ i, typ.Method i = some h.Method ∧ isHandlerMethod I h.Method = some true) ∧
      ((∀ i method, typ.Method i = some method → isHandlerMethod I method ≠ some true) →
        mp = [])) ∧
    (∀ nameFunc, ∃ mp, suitableRemoteMethods I typ nameFunc = some mp) ∧
    (∀ nameFunc, ∃ mp, suitableHandlerMethods I typ nameFunc = some mp) := by
  refine ⟨⟨_, suitableRemoteMethods_eq I typ none, ?_, ?_, ?_⟩,
    ⟨_, suitableHandlerMethods_eq I typ none, ?_, ?_, ?_⟩,
    fun nameFunc => ⟨_, suitableRemoteMethods_eq I typ nameFunc⟩,
    fun nameFunc => ⟨_, suitableHandlerMethods_eq I typ nameFunc⟩⟩
  · intro n
    rw [GoMap.mem_keys_iff]
    constructor
    · rintro ⟨v, hv⟩
      obtain ⟨i, method, -, hmi, hacc, hkey, -⟩ := registry_get_some hv
      exact ⟨i, method, hmi, hkey, (acceptsRemote_iff I method).1 hacc⟩
    · rintro ⟨i, method, hmi, hname, hacc⟩
      have h := @registry_get_isSome _ typ (acceptsRemote I) (fun m => publicName none m.Name)
        remoteDescriptor i method hmi ((acceptsRemote_iff I method).2 hacc)
      simpa [publicName, hname] using h
  · intro k r hr
    obtain ⟨i, method, -, hmi, hacc, -, hd⟩ := registry_get_some hr
    subst hd
    exact ⟨i, hmi, (acceptsRemote_iff I method).1 hacc⟩
  · intro hnone
    apply registryUpTo_eq_nil
    intro i method hmi
    have := hnone i method hmi
    simpa [acceptsRemote] using this
  · intro n
    rw [GoMap.mem_keys_iff]
    constructor
    · rintro ⟨v, hv⟩
      obtain ⟨i, method, -, hmi, hacc, hkey, -⟩ := registry_get_some hv
      exact ⟨i, method, hmi, hkey, (acceptsHandler_iff I method).1 hacc⟩
    · rintro ⟨i, method, hmi, hname, hacc⟩
      have h := @registry_get_isSome _ typ (acceptsHandler I) (fun m => publicName none m.Name)
        handlerDescriptor i method hmi ((acceptsHandler_iff I method).2 hacc)
      simpa [publicName, hname] using h
  · intro k r hr
    obtain ⟨i, method, -, hmi, hacc, -, hd⟩ := registry_get_some hr
    subst hd
    exact ⟨i, hmi, (acceptsHandler_iff I method).1 hacc⟩
  · intro hnone
    apply registryUpTo_eq_nil
    intro i method hmi
    have := hnone i method hmi
    simpa [acceptsHandler] using this

/-- C6: every descriptor stored in a mapping returned by
`suitableHandlerMethods` has `messageKind = Notify` exactly when its method
declares zero outputs and `messageKind = Request` exactly when it declares two
outputs, the second then being the error type; and a method with any other
output count is the handle of no stored descriptor. -/
theorem handler_messageKind_by_outputs (I : RType → RType → Bool) (typ : OwnerType)
    (nameFunc : Option (String → String)) :
    ∃ mp, suitableHandlerMethods I typ nameFunc = some mp ∧
      (∀ k h, GoMap.get mp k = some h →
        (h.MessageType = MessageType.Notify ↔ h.Method.Typ.NumOut = 0) ∧
        (h.MessageType = MessageType.Request ↔ h.Method.Typ.NumOut = 2) ∧
        (h.Method.Typ.NumOut = 2 → h.Method.Typ.Out 1 = some typeOfError)) ∧
      (∀ i method, typ.Method i = some method →
        method.Typ.NumOut ≠ 0 → method.Typ.NumOut ≠ 2 →
        ∀ k h, GoMap.get mp k = some h → h.Method ≠ method) := by
  refine ⟨_, suitableHandlerMethods_eq I typ nameFunc, ?_, ?_⟩
  · intro k h hh
    obtain ⟨i, method, -, hmi, hacc, -, hd⟩ := registry_get_some hh
    subst hd
    have hr := (isHandlerMethod_eq_true_iff I method).1 ((acceptsHandler_iff I method).1 hacc)
    obtain ⟨-, -, -, -, houts, h2⟩ := hr
    simp only [handlerDescriptor, FuncType.NumOut, FuncType.Out]
    refine ⟨?_, ?_, fun hlen => (h2 hlen).1⟩
    · by_cases h0 : method.Typ.outs.length = 0 <;> simp [h0]
    · rcases houts with h0 | h0 <;> simp [h0]
  · intro i method hmi hn0 hn2 k h hh heq
    obtain ⟨j, m2, -, hmj, hacc, -, hd⟩ := registry_get_some hh
    subst hd
    have hr := (isHandlerMethod_eq_true_iff I m2).1 ((acceptsHandler_iff I m2).1 hacc)
    obtain ⟨-, -, -, -, houts, -⟩ := hr
    simp only [handlerDescriptor] at heq
    subst heq
    simp only [FuncType.NumOut] at hn0 hn2
    omega

/-- C8: every descriptor stored in a mapping returned by
`suitableRemoteMethods` has `hasArgs = true` if and only if its method has
exactly 3 inputs, carries an `argType` if and only if `hasArgs` is true, and
that `argType` is the third input type of the method, which implements the
structured-message capability; with `hasArgs = false` there is no `argType`. -/
theorem remote_hasArgs_argType (I : RType → RType → Bool) (typ : OwnerType)
    (nameFunc : Option (String → String)) :
    ∃ mp, suitableRemoteMethods I typ nameFunc = some mp ∧
      ∀ k r, GoMap.get mp k = some r →
        (r.HasArgs = true ↔ r.Method.Typ.NumIn = 3) ∧
        (r.Typ.isSome = true ↔ r.HasArgs = true) ∧
        (∀ t, r.Typ = some t →
          r.Method.Typ.In 2 = some t ∧ I t typeOfProtoMsg = true) ∧
        (r.HasArgs = false → r.Typ = none) := by
  refine ⟨_, suitableRemoteMethods_eq I typ nameFunc, ?_⟩
  intro k r hr
  obtain ⟨i, method, -, hmi, hacc, -, hd⟩ := registry_get_some hr
  subst hd
  have hrules := (isRemoteMethod_eq_true_iff I method).1 ((acceptsRemote_iff I method).1 hacc)
  obtain ⟨-, -, -, h3, -⟩ := hrules
  simp only [remoteDescriptor, FuncType.NumIn, FuncType.In]
  by_cases hlen : method.Typ.ins.length = 3
  · obtain ⟨t2, ht2, hI⟩ := h3 hlen
    simp [hlen, ht2, hI]
  · simp [hlen]

/-- C7: every exported method shaped (receiver, context, rawBytes) whose
outputs are legal for a Handler (none, or a raw-byte or pointer-kinded value
with the error type) is accepted by `isHandlerMethod`; in every type that
enumerates it the loop of `suitableHandlerMethods` stores for it a descriptor
with `isRawPayload = true` and `argType` the raw-byte type, every entry of the
returned mapping with this method as handle has these fields, and the entry
under its public name is this descriptor unless a later accepted method takes
the same key. -/
theorem rawBytes_handler_descriptor (I : RType → RType → Bool) (method : Method)
    (recv ctx : RType) (hexp : method.PkgPath = "")
    (hins : method.Typ.ins = [recv, ctx, typeOfBytes])
    (hctx : I ctx typeOfContext = true)
    (houts : method.Typ.outs = [] ∨
      ∃ o0, method.Typ.outs = [o0, typeOfError] ∧ (o0 = typeOfBytes ∨ o0.kind = Kind.Ptr)) :
    isHandlerMethod I method = some true ∧
    ∀ (typ : OwnerType) (nameFunc : Option (String → String)) (i : Nat),
      typ.Method i = some method →
      (∀ methods, ∃ h,
        handlerLoopBody I typ nameFunc methods i =
          some (GoMap.set methods (publicName nameFunc method.Name) h) ∧
        h.Method = method ∧ h.IsRawArg = true ∧ h.Typ = some typeOfBytes) ∧
      ∃ mp, suitableHandlerMethods I typ nameFunc = some mp ∧
        (∀ k h, GoMap.get mp k = some h → h.Method = method →
          h.IsRawArg = true ∧ h.Typ = some typeOfBytes) ∧
        ((∀ j m2, i < j → typ.Method j = some m2 → isHandlerMethod I m2 = some true →
            publicName nameFunc m2.Name ≠ publicName nameFunc method.Name) →
          ∃ h, GoMap.get mp (publicName nameFunc method.Name) = some h ∧
            h.Method = method ∧ h.IsRawArg = true ∧ h.Typ = some typeOfBytes) := by
  have hacc : isHandlerMethod I method = some true := by
    rw [isHandlerMethod_eq_true_iff]
    refine ⟨hexp, by simp [hins], ⟨ctx, by simp [hins], hctx⟩,
      fun _ => ⟨typeOfBytes, by simp [hins], Or.inr rfl⟩, ?_, ?_⟩
    · rcases houts with h0 | ⟨o0, h0, -⟩ <;> simp [h0]
    · rcases houts with h0 | ⟨o0, h0, ho⟩
      · simp [h0]
      · intro _
        exact ⟨by simp [h0], o0, by simp [h0], ho⟩
  have hraw : (handlerDescriptor method).IsRawArg = true := by
    simp [handlerDescriptor, hins]
  have htyp : (handlerDescriptor method).Typ = some typeOfBytes := by
    simp [handlerDescriptor, hins]
  refine ⟨hacc, ?_⟩
  intro typ nameFunc i hmi
  refine ⟨?_, _, suitableHandlerMethods_eq I typ nameFunc, ?_, ?_⟩
  · intro methods
    refine ⟨handlerDescriptor method, ?_, rfl, hraw, htyp⟩
    rw [handlerLoopBody_eq I typ nameFunc methods i method hmi,
      (acceptsHandler_iff I method).2 hacc]
    rfl
  · intro k h hh heq
    obtain ⟨j, m2, -, -, -, -, hd⟩ := registry_get_some hh
    subst hd
    have : m2 = method := heq
    subst this
    exact ⟨hraw, htyp⟩
  · intro hlater
    refine ⟨handlerDescriptor method, ?_, rfl, hraw, htyp⟩
    exact @registry_get_of_last _ typ (acceptsHandler I)
      (fun m => publicName nameFunc m.Name) handlerDescriptor i method hmi
      ((acceptsHandler_iff I method).2 hacc)
      (fun j m2 hij hmj hacc2 => hlater j m2 hij hmj ((acceptsHandler_iff I m2).1 hacc2))

/-- Instance of C7 at `OnRaw` of the scenario type: the method is accepted and
the mapping built with no rewrite function holds under `OnRaw` a descriptor
with `isRawPayload = true` and the raw-byte type as `argType`. -/
theorem rawBytes_handler_descriptor_witness :
    isHandlerMethod scenarioImplements
      { Name := "OnRaw", PkgPath := "", Index := 2
        Typ := { ins := [svcType, typeOfContext, typeOfBytes]
                 outs := [typeOfBytes, typeOfError] } } = some true ∧
    ∃ mp, suitableHandlerMethods scenarioImplements scenarioType none = some mp ∧
      ∃ h, GoMap.get mp "OnRaw" = some h ∧ h.Method.Name = "OnRaw" ∧
        h.IsRawArg = true ∧ h.Typ = some typeOfBytes := by
  have key := rawBytes_handler_descriptor scenarioImplements
    { Name := "OnRaw", PkgPath := "", Index := 2
      Typ := { ins := [svcType, typeOfContext, typeOfBytes]
               outs := [typeOfBytes, typeOfError] } }
    svcType typeOfContext rfl rfl (by decide)
    (Or.inr ⟨typeOfBytes, rfl, Or.inl rfl⟩)
  refine ⟨key.1, ?_⟩
  obtain ⟨-, mp, hmp, -, hlast⟩ := key.2 scenarioType none 2 (by decide)
  refine ⟨mp, hmp, ?_⟩
  have hno : ∀ j m2, 2 < j → scenarioType.Method j = some m2 →
      isHandlerMethod scenarioImplements m2 = some true →
      publicName none m2.Name ≠ "OnRaw" := by
    intro j m2 hj hmj
    have hlt := method_lt_numMethod scenarioType j m2 hmj
    have hj5 : j < 5 := hlt
    interval_cases j
    · have : m2 = { Name := "Ping", PkgPath := "", Index := 3
                    Typ := { ins := [svcType, typeOfContext]
                             outs := [pongType, typeOfError] } } := by
        simpa [OwnerType.Method, scenarioType] using hmj.symm
      subst this
      intro _
      decide
    · have : m2 = { Name := "notify", PkgPath := "component", Index := 4
                    Typ := { ins := [svcType, typeOfContext, msgType], outs := [] } } := by
        simpa [OwnerType.Method, scenarioType] using hmj.symm
      subst this
      intro _
      decide
  obtain ⟨h, hget, hmeth, hraw, htyp⟩ := hlast hno
  exact ⟨h, hget, by rw [hmeth], hraw, htyp⟩

/-- C9: for every rewrite function `f`, in the mapping returned by either
builder the key `f(m.name)` is present for every accepted method `m`, every key
is `f` of the name of some accepted method, and when no later-enumerated
accepted method is rewritten to the same key the descriptor under `f(m.name)`
has the original method `m`, with its original name, as handle. -/
theorem rewrite_keys_and_handles (I : RType → RType → Bool) (typ : OwnerType)
    (f : String → String) :
    (∃ mp, suitableRemoteMethods I typ (some f) = some mp ∧
      (∀ i method, typ.Method i = some method → isRemoteMethod I method = some true →
        f method.Name ∈ GoMap.keys mp) ∧
      (∀ k, k ∈ GoMap.keys mp →
        ∃ i method, typ.Method i = some method ∧ isRemoteMethod I method = some true ∧
          k = f method.Name) ∧
      (∀ i method, typ.Method i = some method → isRemoteMethod I method = some true →
        (∀ j m2, i < j → typ.Method j = some m2 → isRemoteMethod I m2 = some true →
          f m2.Name ≠ f method.Name) →
        ∃ r, GoMap.get mp (f method.Name) = some r ∧ r.Method = method ∧
          r.Method.Name = method.Name)) ∧
    (∃ mp, suitableHandlerMethods I typ (some f) = some mp ∧
      (∀ i method, typ.Method i = some method → isHandlerMethod I method = some true →
        f method.Name ∈ GoMap.keys mp) ∧
      (∀ k, k ∈ GoMap.keys mp →
        ∃ i method, typ.Method i = some method ∧ isHandlerMethod I method = some true ∧
          k = f method.Name) ∧
      (∀ i method, typ.Method i = some method → isHandlerMethod I method = some true →
        (∀ j m2, i < j → typ.Method j = some m2 → isHandlerMethod I m2 = some true →
          f m2.Name ≠ f method.Name) →
        ∃ h, GoMap.get mp (f method.Name) = some h ∧ h.Method = method ∧
          h.Method.Name = method.Name)) := by
  refine ⟨⟨_, suitableRemoteMethods_eq I typ (some f), ?_, ?_, ?_⟩,
    ⟨_, suitableHandlerMethods_eq I typ (some f), ?_, ?_, ?_⟩⟩
  · intro i method hmi hacc
    rw [GoMap.mem_keys_iff]
    exact @registry_get_isSome _ typ (acceptsRemote I) (fun m => publicName (some f) m.Name)
      remoteDescriptor i method hmi ((acceptsRemote_iff I method).2 hacc)
  · intro k hk
    rw [GoMap.mem_keys_iff] at hk
    obtain ⟨v, hv⟩ := hk
    obtain ⟨i, method, -, hmi, hacc, hkey, -⟩ := registry_get_some hv
    exact ⟨i, method, hmi, (acceptsRemote_iff I method).1 hacc, hkey.symm⟩
  · intro i method hmi hacc hlater
    refine ⟨remoteDescriptor method, ?_, rfl, rfl⟩
    exact @registry_get_of_last _ typ (acceptsRemote I)
      (fun m => publicName (some f) m.Name) remoteDescriptor i method hmi
      ((acceptsRemote_iff I method).2 hacc)
      (fun j m2 hij hmj hacc2 => hlater j m2 hij hmj ((acceptsRemote_iff I m2).1 hacc2))
  · intro i method hmi hacc
    rw [GoMap.mem_keys_iff]
    exact @registry_get_isSome _ typ (acceptsHandler I)
      (fun m => publicName (some f) m.Name) handlerDescriptor i method hmi
      ((acceptsHandler_iff I method).2 hacc)
  · intro k hk
    rw [GoMap.mem_keys_iff] at hk
    obtain ⟨v, hv⟩ := hk
    obtain ⟨i, method, -, hmi, hacc, hkey, -⟩ := registry_get_some hv
    exact ⟨i, method, hmi, (acceptsHandler_iff I method).1 hacc, hkey.symm⟩
  · intro i method hmi hacc hlater
    refine ⟨handlerDescriptor method, ?_, rfl, rfl⟩
    exact @registry_get_of_last _ typ (acceptsHandler I)
      (fun m => publicName (some f) m.Name) handlerDescriptor i method hmi
      ((acceptsHandler_iff I method).2 hacc)
      (fun j m2 hij hmj hacc2 => hlater j m2 hij hmj ((acceptsHandler_iff I m2).1 hacc2))

/-- Instance of C9 with the upper-casing rewrite: the accepted operation named
"foo" is stored under "FOO" in both mappings and the handle of the stored
descriptor is still the operation named "foo". -/
theorem rewrite_keys_and_handles_witness :
    (∃ mp, suitableRemoteMethods scenarioImplements fooType (some upperName) = some mp ∧
      ∃ r, GoMap.get mp "FOO" = some r ∧ r.Method.Name = "foo" ∧ r.Method.Index = 0) ∧
    (∃ mp, suitableHandlerMethods scenarioImplements fooType (some upperName) = some mp ∧
      ∃ h, GoMap.get mp "FOO" = some h ∧ h.Method.Name = "foo" ∧ h.Method.Index = 0) := by
  have hlast : ∀ j, 0 < j → ∀ m2, fooType.Method j = some m2 → False := by
    intro j hj m2 hmj
    have hlt : j < 1 := method_lt_numMethod fooType j m2 hmj
    omega
  obtain ⟨⟨mp, hmp, -, -, h3⟩, ⟨mq, hmq, -, -, k3⟩⟩ :=
    rewrite_keys_and_handles scenarioImplements fooType upperName
  refine ⟨⟨mp, hmp, ?_⟩, ⟨mq, hmq, ?_⟩⟩
  · obtain ⟨r, hget, hmeth, -⟩ := h3 0
      { Name := "foo", PkgPath := "", Index := 0
        Typ := { ins := [svcType, typeOfContext], outs := [pongType, typeOfError] } }
      (by decide) (by decide) (fun j m2 hj hmj _ => (hlast j hj m2 hmj).elim)
    have hup : upperName "foo" = "FOO" := by decide
    rw [hup] at hget
    exact ⟨r, hget, by rw [hmeth], by rw [hmeth]⟩
  · obtain ⟨h, hget, hmeth, -⟩ := k3 0
      { Name := "foo", PkgPath := "", Index := 0
        Typ := { ins := [svcType, typeOfContext], outs := [pongType, typeOfError] } }
      (by decide) (by decide) (fun j m2 hj hmj _ => (hlast j hj m2 hmj).elim)
    have hup : upperName "foo" = "FOO" := by decide
    rw [hup] at hget
    exact ⟨h, hget, by rw [hmeth], by rw [hmeth]⟩

/-- C10: when several accepted methods receive the same key, the mapping
returned by either builder holds under that key exactly the descriptor of the
accepted method of largest enumeration index among them: for an accepted method
after which no accepted method takes the same key, the entry under its key is
the descriptor whose handle, `hasArgs` / `isRawPayload`, `messageKind` and
`argType` are all computed from that method. -/
theorem last_write_wins (I : RType → RType → Bool) (typ : OwnerType)
    (nameFunc : Option (String → String)) :
    (∃ mp, suitableRemoteMethods I typ nameFunc = some mp ∧
      ∀ i method, typ.Method i = some method → isRemoteMethod I method = some true →
        (∀ j m2, i < j → typ.Method j = some m2 → isRemoteMethod I m2 = some true →
          publicName nameFunc m2.Name ≠ publicName nameFunc method.Name) →
        ∃ r, GoMap.get mp (publicName nameFunc method.Name) = some r ∧
          r.Method = method ∧
          r.HasArgs = decide (method.Typ.NumIn = 3) ∧
          r.Typ = (if method.Typ.NumIn = 3 then method.Typ.In 2 else none)) ∧
    (∃ mp, suitableHandlerMethods I typ nameFunc = some mp ∧
      ∀ i method, typ.Method i = some method → isHandlerMethod I method = some true →
        (∀ j m2, i < j → typ.Method j = some m2 → isHandlerMethod I m2 = some true →
          publicName nameFunc m2.Name ≠ publicName nameFunc method.Name) →
        ∃ h, GoMap.get mp (publicName nameFunc method.Name) = some h ∧
          h.Method = method ∧
          h.IsRawArg = decide (method.Typ.NumIn = 3 ∧ method.Typ.In 2 = some typeOfBytes) ∧
          h.MessageType =
            (if method.Typ.NumOut = 0 then MessageType.Notify else MessageType.Request) ∧
          h.Typ = (if method.Typ.NumIn = 3 then method.Typ.In 2 else none)) := by
  refine ⟨⟨_, suitableRemoteMethods_eq I typ nameFunc, ?_⟩,
    ⟨_, suitableHandlerMethods_eq I typ nameFunc, ?_⟩⟩
  · intro i method hmi hacc hlater
    refine ⟨remoteDescriptor method, ?_, rfl, rfl, rfl⟩
    exact @registry_get_of_last _ typ (acceptsRemote I)
      (fun m => publicName nameFunc m.Name) remoteDescriptor i method hmi
      ((acceptsRemote_iff I method).2 hacc)
      (fun j m2 hij hmj hacc2 => hlater j m2 hij hmj ((acceptsRemote_iff I m2).1 hacc2))
  · intro i method hmi hacc hlater
    refine ⟨handlerDescriptor method, ?_, rfl, rfl, rfl, rfl⟩
    exact @registry_get_of_last _ typ (acceptsHandler I)
      (fun m => publicName nameFunc m.Name) handlerDescriptor i method hmi
      ((acceptsHandler_iff I method).2 hacc)
      (fun j m2 hij hmj hacc2 => hlater j m2 hij hmj ((acceptsHandler_iff I m2).1 hacc2))

/-- Instance of C10: `Load` (index 0, with a payload) and `load` (index 1,
without one) are both accepted and both rewritten to `LOAD`; the entry under
`LOAD` is the descriptor of `load`, the later one, in both mappings. -/
theorem last_write_wins_witness :
    isRemoteMethod scenarioImplements
      { Name := "Load", PkgPath := "", Index := 0
        Typ := { ins := [svcType, typeOfContext, reqType]
                 outs := [respType, typeOfError] } } = some true ∧
    (∃ mp, suitableRemoteMethods scenarioImplements collidingType (some upperName) = some mp ∧
      ∃ r, GoMap.get mp "LOAD" = some r ∧ r.Method.Name = "load" ∧ r.Method.Index = 1 ∧
        r.HasArgs = false ∧ r.Typ = none) ∧
    (∃ mp, suitableHandlerMethods scenarioImplements collidingType (some upperName) = some mp ∧
      ∃ h, GoMap.get mp "LOAD" = some h ∧ h.Method.Name = "load" ∧ h.Method.Index = 1 ∧
        h.IsRawArg = false ∧ h.MessageType = MessageType.Request ∧ h.Typ = none) := by
  have hlast : ∀ j, 1 < j → ∀ m2, collidingType.Method j = some m2 → False := by
    intro j hj m2 hmj
    have hlt : j < 2 := method_lt_numMethod collidingType j m2 hmj
    omega
  obtain ⟨⟨mp, hmp, h3⟩, ⟨mq, hmq, k3⟩⟩ :=
    last_write_wins scenarioImplements collidingType (some upperName)
  refine ⟨by decide, ⟨mp, hmp, ?_⟩, ⟨mq, hmq, ?_⟩⟩
  · obtain ⟨r, hget, hmeth, hargs, htyp⟩ := h3 1
      { Name := "load", PkgPath := "", Index := 1
        Typ := { ins := [svcType, typeOfContext], outs := [pongType, typeOfError] } }
      (by decide) (by decide) (fun j m2 hj hmj _ => (hlast j hj m2 hmj).elim)
    have hup : publicName (some upperName) "load" = "LOAD" := by decide
    rw [hup] at hget
    exact ⟨r, hget, by rw [hmeth], by rw [hmeth], by rw [hargs]; decide, by rw [htyp]; decide⟩
  · obtain ⟨h, hget, hmeth, hraw, hkind, htyp⟩ := k3 1
      { Name := "load", PkgPath := "", Index := 1
        Typ := { ins := [svcType, typeOfContext], outs := [pongType, typeOfError] } }
      (by decide) (by decide) (fun j m2 hj hmj _ => (hlast j hj m2 hmj).elim)
    have hup : publicName (some upperName) "load" = "LOAD" := by decide
    rw [hup] at hget
    exact ⟨h, hget, by rw [hmeth], by rw [hmeth], by rw [hraw]; decide, by rw [hkind]; decide,
      by rw [htyp]; decide⟩

/-! ## Decoding the first rune -/

theorem land_lead2 (a : Nat) (h : a < 32) : (0xC0 + a) &&& 0x1F = a := by
  have key : ∀ x : Fin 32, (0xC0 + x.val) &&& 0x1F = x.val := by decide
  exact key ⟨a, h⟩

theorem land_lead3 (a : Nat) (h : a < 16) : (0xE0 + a) &&& 0x0F = a := by
  have key : ∀ x : Fin 16, (0xE0 + x.val) &&& 0x0F = x.val := by decide
  exact key ⟨a, h⟩

theorem land_lead4 (a : Nat) (h : a < 8) : (0xF0 + a) &&& 0x07 = a := by
  have key : ∀ x : Fin 8, (0xF0 + x.val) &&& 0x07 = x.val := by decide
  exact key ⟨a, h⟩

theorem land_cont (b : Nat) (h : b < 64) : (0x80 + b) &&& 0x3F = b := by
  have key : ∀ x : Fin 64, (0x80 + x.val) &&& 0x3F = x.val := by decide
  exact key ⟨b, h⟩

theorem shiftLeft_lor_eq_add (a b n : Nat) (h : b < 2 ^ n) :
    (a <<< n) ||| b = a * 2 ^ n + b := by
  rw [Nat.shiftLeft_eq, Nat.mul_comm a (2 ^ n), Nat.mul_add_lt_is_or h]

theorem rune_of_two (a b : Nat) (hb : b < 64) : (a <<< 6) ||| b = a * 64 + b := by
  have h := shiftLeft_lor_eq_add a b 6 (by omega)
  omega

theorem rune_of_three (a b c : Nat) (hb : b < 64) (hc : c < 64) :
    ((a <<< 12) ||| (b <<< 6)) ||| c = a * 4096 + b * 64 + c := by
  have hb6 : b <<< 6 = b * 64 := by rw [Nat.shiftLeft_eq]
  have h1 := shiftLeft_lor_eq_add a (b <<< 6) 12 (by rw [hb6]; omega)
  have h2 : a * 2 ^ 12 + b <<< 6 = (a * 64 + b) <<< 6 := by
    rw [hb6, Nat.shiftLeft_eq]; omega
  rw [h1, h2, rune_of_two _ _ hc]
  omega

theorem rune_of_four (a b c d : Nat) (hb : b < 64) (hc : c < 64) (hd : d < 64) :
    (((a <<< 18) ||| (b <<< 12)) ||| (c <<< 6)) ||| d =
      a * 262144 + b * 4096 + c * 64 + d := by
  have hb12 : b <<< 12 = b * 4096 := by rw [Nat.shiftLeft_eq]
  have h1 := shiftLeft_lor_eq_add a (b <<< 12) 18 (by rw [hb12]; omega)
  have h2 : a * 2 ^ 18 + b <<< 12 = (a * 64 + b) <<< 12 := by
    rw [hb12, Nat.shiftLeft_eq]; omega
  rw [h1, h2, rune_of_three _ _ _ hc hd]
  omega

theorem decode_nil : DecodeRuneInString [] = some (RuneError, 0) := by
  decide

theorem decode_ascii (s0 : Nat) (t : List Nat) (h : s0 < 0x80) :
    DecodeRuneInString (s0 :: t) = some (s0, 1) := by
  have hx : utf8First s0 = 0xF0 := by
    simp [utf8First, h]
  simp [DecodeRuneInString, hx]

theorem decode_invalid_lead (s0 : Nat) (t : List Nat)
    (h : (0x80 ≤ s0 ∧ s0 < 0xC2) ∨ 0xF5 ≤ s0) :
    DecodeRuneInString (s0 :: t) = some (RuneError, 1) := by
  have hx : utf8First s0 = 0xF1 := by
    unfold utf8First
    split_ifs <;> first | rfl | omega
  simp [DecodeRuneInString, hx]

theorem decode_short (s0 : Nat) (t : List Nat) (x : Nat) (hx : utf8First s0 = x)
    (hxlt : x < 0xF0) (hlen : t.length + 1 < x &&& 7) :
    DecodeRuneInString (s0 :: t) = some (RuneError, 1) := by
  have hx2 : ¬ (0xF0 ≤ x) := by omega
  simp [DecodeRuneInString, hx, hx2, hlen]

theorem decode_two (s0 s1 : Nat) (t : List Nat) (h0 : 0xC2 ≤ s0) (h0' : s0 < 0xE0) :
    DecodeRuneInString (s0 :: s1 :: t) =
      some (if s1 < 0x80 ∨ 0xBF < s1 then (RuneError, 1)
      else ((s0 - 0xC0) * 64 + (s1 - 0x80), 2)) := by
  have hx : utf8First s0 = 0x02 := by
    unfold utf8First
    split_ifs <;> first | rfl | omega
  have hsz : (2 : Nat) &&& 7 = 2 := by decide
  by_cases h1 : s1 < 0x80 ∨ 0xBF < s1
  · simp [DecodeRuneInString, hx, hsz, acceptRanges, h1]
  · have ha := land_lead2 (s0 - 0xC0) (by omega)
    have hb := land_cont (s1 - 0x80) (by omega)
    have e0 : 0xC0 + (s0 - 0xC0) = s0 := by omega
    have e1 : 0x80 + (s1 - 0x80) = s1 := by omega
    rw [e0] at ha
    rw [e1] at hb
    have hv := rune_of_two (s0 - 0xC0) (s1 - 0x80) (by omega)
    simp [DecodeRuneInString, hx, hsz, acceptRanges, h1, ha, hb, hv]

theorem decode_three (s0 s1 s2 : Nat) (t : List Nat) (x lo hi : Nat)
    (hx : utf8First s0 = x) (hxlt : x < 0xF0) (hsz : x &&& 7 = 3)
    (hacc : acceptRanges (x >>> 4) = (lo, hi)) (h0 : 0xE0 ≤ s0) (h0' : s0 < 0xF0)
    (hlo : 0x80 ≤ lo) (hhi : hi ≤ 0xBF) :
    DecodeRuneInString (s0 :: s1 :: s2 :: t) =
      some (if s1 < lo ∨ hi < s1 then (RuneError, 1)
      else if s2 < 0x80 ∨ 0xBF < s2 then (RuneError, 1)
      else ((s0 - 0xE0) * 4096 + (s1 - 0x80) * 64 + (s2 - 0x80), 3)) := by
  have hx2 : ¬ (0xF0 ≤ x) := by omega
  by_cases h1 : s1 < lo ∨ hi < s1
  · simp [DecodeRuneInString, hx, hx2, hsz, hacc, h1]
  · by_cases h2 : s2 < 0x80 ∨ 0xBF < s2
    · simp [DecodeRuneInString, hx, hx2, hsz, hacc, h1, h2]
    · have ha := land_lead3 (s0 - 0xE0) (by omega)
      have hb := land_cont (s1 - 0x80) (by omega)
      have hc := land_cont (s2 - 0x80) (by omega)
      have e0 : 0xE0 + (s0 - 0xE0) = s0 := by omega
      have e1 : 0x80 + (s1 - 0x80) = s1 := by omega
      have e2 : 0x80 + (s2 - 0x80) = s2 := by omega
      rw [e0] at ha
      rw [e1] at hb
      rw [e2] at hc
      have hv := rune_of_three (s0 - 0xE0) (s1 - 0x80) (s2 - 0x80) (by omega) (by omega)
      simp [DecodeRuneInString, hx, hx2, hsz, hacc, h1, h2, ha, hb, hc, hv]

theorem decode_four (s0 s1 s2 s3 : Nat) (t : List Nat) (x lo hi : Nat)
    (hx : utf8First s0 = x) (hxlt : x < 0xF0) (hsz : x &&& 7 = 4)
    (hacc : acceptRanges (x >>> 4) = (lo, hi)) (h0 : 0xF0 ≤ s0) (h0' : s0 < 0xF5)
    (hlo : 0x80 ≤ lo) (hhi : hi ≤ 0xBF) :
    DecodeRuneInString (s0 :: s1 :: s2 :: s3 :: t) =
      some (if s1 < lo ∨ hi < s1 then (RuneError, 1)
      else if s2 < 0x80 ∨ 0xBF < s2 then (RuneError, 1)
      else if s3 < 0x80 ∨ 0xBF < s3 then (RuneError, 1)
      else ((s0 - 0xF0) * 262144 + (s1 - 0x80) * 4096 + (s2 - 0x80) * 64 +
        (s3 - 0x80), 4)) := by
  have hx2 : ¬ (0xF0 ≤ x) := by omega
  by_cases h1 : s1 < lo ∨ hi < s1
  · simp [DecodeRuneInString, hx, hx2, hsz, hacc, h1]
  · by_cases h2 : s2 < 0x80 ∨ 0xBF < s2
    · simp [DecodeRuneInString, hx, hx2, hsz, hacc, h1, h2]
    · by_cases h3 : s3 < 0x80 ∨ 0xBF < s3
      · simp [DecodeRuneInString, hx, hx2, hsz, hacc, h1, h2, h3]
      · have ha := land_lead4 (s0 - 0xF0) (by omega)
        have hb := land_cont (s1 - 0x80) (by omega)
        have hc := land_cont (s2 - 0x80) (by omega)
        have hd := land_cont (s3 - 0x80) (by omega)
        have e0 : 0xF0 + (s0 - 0xF0) = s0 := by omega
        have e1 : 0x80 + (s1 - 0x80) = s1 := by omega
        have e2 : 0x80 + (s2 - 0x80) = s2 := by omega
        have e3 : 0x80 + (s3 - 0x80) = s3 := by omega
        rw [e0] at ha
        rw [e1] at hb
        rw [e2] at hc
        rw [e3] at hd
        have hv := rune_of_four (s0 - 0xF0) (s1 - 0x80) (s2 - 0x80) (s3 - 0x80)
          (by omega) (by omega) (by omega)
        simp [DecodeRuneInString, hx, hx2, hsz, hacc, h1, h2, h3, ha, hb, hc, hd, hv]

theorem decode_two_bytes (a b : Nat) (rest : List Nat) (ha : 2 ≤ a) (ha' : a < 32)
    (hb : b < 64) :
    DecodeRuneInString ((0xC0 + a) :: (0x80 + b) :: rest) = some (a * 64 + b, 2) := by
  rw [decode_two _ _ _ (by omega) (by omega)]
  have hin : ¬ (0x80 + b < 0x80 ∨ 0xBF < 0x80 + b) := by omega
  have e0 : 0xC0 + a - 0xC0 = a := by omega
  have e1 : 0x80 + b - 0x80 = b := by omega
  rw [if_neg hin, e0, e1]

theorem decode_three_bytes (a b d : Nat) (rest : List Nat) (ha : a < 16) (hb : b < 64)
    (hd : d < 64) (hlow : a = 0 → 32 ≤ b) (hsur : a = 13 → b < 32) :
    DecodeRuneInString ((0xE0 + a) :: (0x80 + b) :: (0x80 + d) :: rest) =
      some (a * 4096 + b * 64 + d, 3) := by
  have e0 : 0xE0 + a - 0xE0 = a := by omega
  have e1 : 0x80 + b - 0x80 = b := by omega
  have e2 : 0x80 + d - 0x80 = d := by omega
  have h2in : ¬ (0x80 + d < 0x80 ∨ 0xBF < 0x80 + d) := by omega
  by_cases h0 : a = 0
  · have hx : utf8First (0xE0 + a) = 0x13 := by
      subst h0
      decide
    have h1in : ¬ (0x80 + b < 0xA0 ∨ 0xBF < 0x80 + b) := by
      have := hlow h0
      omega
    rw [decode_three _ _ _ _ 0x13 0xA0 0xBF hx (by omega) (by decide) (by decide)
      (by omega) (by omega) (by omega) (by omega), if_neg h1in, if_neg h2in, e0, e1, e2]
  · by_cases h13 : a = 13
    · have hx : utf8First (0xE0 + a) = 0x23 := by
        subst h13
        decide
      have h1in : ¬ (0x80 + b < 0x80 ∨ 0x9F < 0x80 + b) := by
        have := hsur h13
        omega
      rw [decode_three _ _ _ _ 0x23 0x80 0x9F hx (by omega) (by decide) (by decide)
        (by omega) (by omega) (by omega) (by omega), if_neg h1in, if_neg h2in, e0, e1, e2]
    · have hx : utf8First (0xE0 + a) = 0x03 := by
        have key : ∀ x : Fin 16, x.val ≠ 0 → x.val ≠ 13 →
            utf8First (0xE0 + x.val) = 0x03 := by decide
        exact key ⟨a, ha⟩ h0 h13
      have h1in : ¬ (0x80 + b < 0x80 ∨ 0xBF < 0x80 + b) := by omega
      rw [decode_three _ _ _ _ 0x03 0x80 0xBF hx (by omega) (by decide) (by decide)
        (by omega) (by omega) (by omega) (by omega), if_neg h1in, if_neg h2in, e0, e1, e2]

theorem decode_four_bytes (a b d e : Nat) (rest : List Nat) (ha : a < 5) (hb : b < 64)
    (hd : d < 64) (he : e < 64) (hlow : a = 0 → 16 ≤ b) (hmax : a = 4 → b < 16) :
    DecodeRuneInString ((0xF0 + a) :: (0x80 + b) :: (0x80 + d) :: (0x80 + e) :: rest) =
      some (a * 262144 + b * 4096 + d * 64 + e, 4) := by
  have e0 : 0xF0 + a - 0xF0 = a := by omega
  have e1 : 0x80 + b - 0x80 = b := by omega
  have e2 : 0x80 + d - 0x80 = d := by omega
  have e3 : 0x80 + e - 0x80 = e := by omega
  have h2in : ¬ (0x80 + d < 0x80 ∨ 0xBF < 0x80 + d) := by omega
  have h3in : ¬ (0x80 + e < 0x80 ∨ 0xBF < 0x80 + e) := by omega
  by_cases h0 : a = 0
  · have hx : utf8First (0xF0 + a) = 0x34 := by
      subst h0
      decide
    have h1in : ¬ (0x80 + b < 0x90 ∨ 0xBF < 0x80 + b) := by
      have := hlow h0
      omega
    rw [decode_four _ _ _ _ _ 0x34 0x90 0xBF hx (by omega) (by decide) (by decide)
      (by omega) (by omega) (by omega) (by omega), if_neg h1in, if_neg h2in, if_neg h3in,
      e0, e1, e2, e3]
  · by_cases h4 : a = 4
    · have hx : utf8First (0xF0 + a) = 0x44 := by
        subst h4
        decide
      have h1in : ¬ (0x80 + b < 0x80 ∨ 0x8F < 0x80 + b) := by
        have := hmax h4
        omega
      rw [decode_four _ _ _ _ _ 0x44 0x80 0x8F hx (by omega) (by decide) (by decide)
        (by omega) (by omega) (by omega) (by omega), if_neg h1in, if_neg h2in, if_neg h3in,
        e0, e1, e2, e3]
    · have hx : utf8First (0xF0 + a) = 0x04 := by
        have key : ∀ x : Fin 5, x.val ≠ 0 → x.val ≠ 4 →
            utf8First (0xF0 + x.val) = 0x04 := by decide
        exact key ⟨a, ha⟩ h0 h4
      have h1in : ¬ (0x80 + b < 0x80 ∨ 0xBF < 0x80 + b) := by omega
      rw [decode_four _ _ _ _ _ 0x04 0x80 0xBF hx (by omega) (by decide) (by decide)
        (by omega) (by omega) (by omega) (by omega), if_neg h1in, if_neg h2in, if_neg h3in,
        e0, e1, e2, e3]

/-- The decoder reads back the encoding of a scalar value placed at the head
of a string. -/
theorem decode_encode (c : Nat) (rest : List Nat) (h : isScalarValue c) :
    DecodeRuneInString (utf8Encode c ++ rest) = some (c, (utf8Encode c).length) := by
  unfold isScalarValue at h
  by_cases h1 : c < 0x80
  · simp [utf8Encode, h1, decode_ascii c rest h1]
  by_cases h2 : c < 0x800
  · have henc : utf8Encode c = [0xC0 + c / 64, 0x80 + c % 64] := by
      simp [utf8Encode, h1, h2]
    have hval : c / 64 * 64 + c % 64 = c := by omega
    rw [henc]
    simp only [List.cons_append, List.nil_append, List.length_cons, List.length_nil]
    rw [decode_two_bytes _ _ _ (by omega) (by omega) (by omega), hval]
  by_cases h3 : c < 0x10000
  · have henc : utf8Encode c = [0xE0 + c / 4096, 0x80 + c / 64 % 64, 0x80 + c % 64] := by
      simp [utf8Encode, h1, h2, h3]
    have hval : c / 4096 * 4096 + c / 64 % 64 * 64 + c % 64 = c := by omega
    rw [henc]
    simp only [List.cons_append, List.nil_append, List.length_cons, List.length_nil]
    rw [decode_three_bytes _ _ _ _ (by omega) (by omega) (by omega) (by omega) (by omega),
      hval]
  · have henc : utf8Encode c =
        [0xF0 + c / 262144, 0x80 + c / 4096 % 64, 0x80 + c / 64 % 64, 0x80 + c % 64] := by
      simp [utf8Encode, h1, h2, h3]
    have hval : c / 262144 * 262144 + c / 4096 % 64 * 4096 + c / 64 % 64 * 64 + c % 64 = c := by
      omega
    rw [henc]
    simp only [List.cons_append, List.nil_append, List.length_cons, List.length_nil]
    rw [decode_four_bytes _ _ _ _ _ (by omega) (by omega) (by omega) (by omega) (by omega)
      (by omega), hval]

theorem first_of_three (s0 : Nat) (h0 : 0xE0 ≤ s0) (h0' : s0 < 0xF0) :
    ∃ x lo hi, utf8First s0 = x ∧ x < 0xF0 ∧ x &&& 7 = 3 ∧
      acceptRanges (x >>> 4) = (lo, hi) ∧ 0x80 ≤ lo ∧ hi ≤ 0xBF ∧
      (s0 = 0xE0 → 0xA0 ≤ lo) ∧ (s0 = 0xED → hi ≤ 0x9F) := by
  have key : ∀ a : Fin 16,
      (a.val = 0 ∧ utf8First (0xE0 + a.val) = 0x13) ∨
      (a.val = 13 ∧ utf8First (0xE0 + a.val) = 0x23) ∨
      (a.val ≠ 0 ∧ a.val ≠ 13 ∧ utf8First (0xE0 + a.val) = 0x03) := by decide
  have e0 : 0xE0 + (s0 - 0xE0) = s0 := by omega
  have hk := key ⟨s0 - 0xE0, by omega⟩
  simp only [e0] at hk
  rcases hk with ⟨ha, hx⟩ | ⟨ha, hx⟩ | ⟨ha, hb, hx⟩
  · exact ⟨0x13, 0xA0, 0xBF, hx, by omega, by decide, by decide, by omega, by omega,
      fun _ => by omega, fun h => by omega⟩
  · exact ⟨0x23, 0x80, 0x9F, hx, by omega, by decide, by decide, by omega, by omega,
      fun h => by omega, fun _ => by omega⟩
  · exact ⟨0x03, 0x80, 0xBF, hx, by omega, by decide, by decide, by omega, by omega,
      fun h => by omega, fun h => by omega⟩

theorem first_of_four (s0 : Nat) (h0 : 0xF0 ≤ s0) (h0' : s0 < 0xF5) :
    ∃ x lo hi, utf8First s0 = x ∧ x < 0xF0 ∧ x &&& 7 = 4 ∧
      acceptRanges (x >>> 4) = (lo, hi) ∧ 0x80 ≤ lo ∧ hi ≤ 0xBF ∧
      (s0 = 0xF0 → 0x90 ≤ lo) ∧ (s0 = 0xF4 → hi ≤ 0x8F) := by
  have key : ∀ a : Fin 5,
      (a.val = 0 ∧ utf8First (0xF0 + a.val) = 0x34) ∨
      (a.val = 4 ∧ utf8First (0xF0 + a.val) = 0x44) ∨
      (a.val ≠ 0 ∧ a.val ≠ 4 ∧ utf8First (0xF0 + a.val) = 0x04) := by decide
  have e0 : 0xF0 + (s0 - 0xF0) = s0 := by omega
  have hk := key ⟨s0 - 0xF0, by omega⟩
  simp only [e0] at hk
  rcases hk with ⟨ha, hx⟩ | ⟨ha, hx⟩ | ⟨ha, hb, hx⟩
  · exact ⟨0x34, 0x90, 0xBF, hx, by omega, by decide, by decide, by omega, by omega,
      fun _ => by omega, fun h => by omega⟩
  · exact ⟨0x44, 0x80, 0x8F, hx, by omega, by decide, by decide, by omega, by omega,
      fun h => by omega, fun _ => by omega⟩
  · exact ⟨0x04, 0x80, 0xBF, hx, by omega, by decide, by decide, by omega, by omega,
      fun h => by omega, fun h => by omega⟩

theorem encode_two_bytes (a b : Nat) (ha : 2 ≤ a) (ha' : a < 32) (hb : b < 64) :
    isScalarValue (a * 64 + b) ∧ utf8Encode (a * 64 + b) = [0xC0 + a, 0x80 + b] := by
  have h1 : ¬ (a * 64 + b < 0x80) := by omega
  have h2 : a * 64 + b < 0x800 := by omega
  have hq : (a * 64 + b) / 64 = a := by omega
  have hr : (a * 64 + b) % 64 = b := by omega
  refine ⟨Or.inl (by omega), ?_⟩
  simp [utf8Encode, h1, h2, hq, hr]

theorem encode_three_bytes (a b d : Nat) (ha : a < 16) (hb : b < 64) (hd : d < 64)
    (hlow : a = 0 → 32 ≤ b) (hsur : a = 13 → b < 32) :
    isScalarValue (a * 4096 + b * 64 + d) ∧
      utf8Encode (a * 4096 + b * 64 + d) = [0xE0 + a, 0x80 + b, 0x80 + d] := by
  have h1 : ¬ (a * 4096 + b * 64 + d < 0x80) := by omega
  have h2 : ¬ (a * 4096 + b * 64 + d < 0x800) := by omega
  have h3 : a * 4096 + b * 64 + d < 0x10000 := by omega
  have hq : (a * 4096 + b * 64 + d) / 4096 = a := by omega
  have hm : (a * 4096 + b * 64 + d) / 64 % 64 = b := by omega
  have hr : (a * 4096 + b * 64 + d) % 64 = d := by omega
  refine ⟨?_, ?_⟩
  · unfold isScalarValue
    omega
  · simp [utf8Encode, h1, h2, h3, hq, hm, hr]

theorem encode_four_bytes (a b d e : Nat) (ha : a < 5) (hb : b < 64) (hd : d < 64)
    (he : e < 64) (hlow : a = 0 → 16 ≤ b) (hmax : a = 4 → b < 16) :
    isScalarValue (a * 262144 + b * 4096 + d * 64 + e) ∧
      utf8Encode (a * 262144 + b * 4096 + d * 64 + e) =
        [0xF0 + a, 0x80 + b, 0x80 + d, 0x80 + e] := by
  have h1 : ¬ (a * 262144 + b * 4096 + d * 64 + e < 0x80) := by omega
  have h2 : ¬ (a * 262144 + b * 4096 + d * 64 + e < 0x800) := by omega
  have h3 : ¬ (a * 262144 + b * 4096 + d * 64 + e < 0x10000) := by omega
  have hq : (a * 262144 + b * 4096 + d * 64 + e) / 262144 = a := by omega
  have hn : (a * 262144 + b * 4096 + d * 64 + e) / 4096 % 64 = b := by omega
  have hm : (a * 262144 + b * 4096 + d * 64 + e) / 64 % 64 = d := by omega
  have hr : (a * 262144 + b * 4096 + d * 64 + e) % 64 = e := by omega
  refine ⟨?_, ?_⟩
  · unfold isScalarValue
    omega
  · simp [utf8Encode, h1, h2, h3, hq, hn, hm, hr]

/-- Every string either begins with the encoding of a scalar value, or is
empty and decodes to `(RuneError, 0)`, or is not empty and decodes to
`(RuneError, 1)`. -/
theorem decode_cases (s : List Nat) :
    (∃ c rest, isScalarValue c ∧ s = utf8Encode c ++ rest) ∨
    (s = [] ∧ DecodeRuneInString s = some (RuneError, 0)) ∨
    (s ≠ [] ∧ DecodeRuneInString s = some (RuneError, 1)) := by
  cases s with
  | nil => exact Or.inr (Or.inl ⟨rfl, decode_nil⟩)
  | cons s0 t =>
    by_cases hA : s0 < 0x80
    · refine Or.inl ⟨s0, t, Or.inl (by omega), ?_⟩
      simp [utf8Encode, hA]
    by_cases hB : s0 < 0xC2
    · exact Or.inr (Or.inr ⟨by simp, decode_invalid_lead s0 t (Or.inl ⟨by omega, hB⟩)⟩)
    by_cases hC : s0 < 0xE0
    · have hx : utf8First s0 = 0x02 := by
        have key : ∀ a : Fin 32, 2 ≤ a.val → utf8First (0xC0 + a.val) = 0x02 := by decide
        have e0 : 0xC0 + (s0 - 0xC0) = s0 := by omega
        have hk := key ⟨s0 - 0xC0, by omega⟩ (by simp; omega)
        simpa only [e0] using hk
      cases t with
      | nil =>
        exact Or.inr (Or.inr ⟨by simp,
          decode_short s0 [] 0x02 hx (by omega) (by decide)⟩)
      | cons s1 t2 =>
        by_cases h1 : s1 < 0x80 ∨ 0xBF < s1
        · refine Or.inr (Or.inr ⟨by simp, ?_⟩)
          rw [decode_two _ _ _ (by omega) hC, if_pos h1]
        · obtain ⟨hsc, henc⟩ := encode_two_bytes (s0 - 0xC0) (s1 - 0x80) (by omega)
            (by omega) (by omega)
          have e0 : 0xC0 + (s0 - 0xC0) = s0 := by omega
          have e1 : 0x80 + (s1 - 0x80) = s1 := by omega
          rw [e0, e1] at henc
          exact Or.inl ⟨_, t2, hsc, by rw [henc]; rfl⟩
    by_cases hD : s0 < 0xF0
    · obtain ⟨x, lo, hi, hx, hxlt, hsz, hacc, hlo, hhi, hE0, hED⟩ :=
        first_of_three s0 (by omega) hD
      match t with
      | [] =>
        exact Or.inr (Or.inr ⟨by simp,
          decode_short s0 [] x hx hxlt (by rw [hsz]; decide)⟩)
      | [s1] =>
        exact Or.inr (Or.inr ⟨by simp,
          decode_short s0 [s1] x hx hxlt (by rw [hsz]; simp)⟩)
      | s1 :: s2 :: t3 =>
        have hdec := decode_three s0 s1 s2 t3 x lo hi hx hxlt hsz hacc (by omega) hD hlo hhi
        by_cases h1 : s1 < lo ∨ hi < s1
        · exact Or.inr (Or.inr ⟨by simp, by rw [hdec, if_pos h1]⟩)
        by_cases h2 : s2 < 0x80 ∨ 0xBF < s2
        · exact Or.inr (Or.inr ⟨by simp, by rw [hdec, if_neg h1, if_pos h2]⟩)
        obtain ⟨hsc, henc⟩ := encode_three_bytes (s0 - 0xE0) (s1 - 0x80) (s2 - 0x80)
          (by omega) (by omega) (by omega)
          (fun h => by have := hE0 (by omega); omega)
          (fun h => by have := hED (by omega); omega)
        have e0 : 0xE0 + (s0 - 0xE0) = s0 := by omega
        have e1 : 0x80 + (s1 - 0x80) = s1 := by omega
        have e2 : 0x80 + (s2 - 0x80) = s2 := by omega
        rw [e0, e1, e2] at henc
        exact Or.inl ⟨_, t3, hsc, by rw [henc]; rfl⟩
    by_cases hE : s0 < 0xF5
    · obtain ⟨x, lo, hi, hx, hxlt, hsz, hacc, hlo, hhi, hF0, hF4⟩ :=
        first_of_four s0 (by omega) hE
      match t with
      | [] =>
        exact Or.inr (Or.inr ⟨by simp,
          decode_short s0 [] x hx hxlt (by rw [hsz]; decide)⟩)
      | [s1] =>
        exact Or.inr (Or.inr ⟨by simp,
          decode_short s0 [s1] x hx hxlt (by rw [hsz]; simp)⟩)
      | [s1, s2] =>
        exact Or.inr (Or.inr ⟨by simp,
          decode_short s0 [s1, s2] x hx hxlt (by rw [hsz]; simp)⟩)
      | s1 :: s2 :: s3 :: t4 =>
        have hdec := decode_four s0 s1 s2 s3 t4 x lo hi hx hxlt hsz hacc (by omega) hE
          hlo hhi
        by_cases h1 : s1 < lo ∨ hi < s1
        · exact Or.inr (Or.inr ⟨by simp, by rw [hdec, if_pos h1]⟩)
        by_cases h2 : s2 < 0x80 ∨ 0xBF < s2
        · exact Or.inr (Or.inr ⟨by simp, by rw [hdec, if_neg h1, if_pos h2]⟩)
        by_cases h3 : s3 < 0x80 ∨ 0xBF < s3
        · exact Or.inr (Or.inr ⟨by simp, by rw [hdec, if_neg h1, if_neg h2, if_pos h3]⟩)
        obtain ⟨hsc, henc⟩ := encode_four_bytes (s0 - 0xF0) (s1 - 0x80) (s2 - 0x80)
          (s3 - 0x80) (by omega) (by omega) (by omega) (by omega)
          (fun h => by have := hF0 (by omega); omega)
          (fun h => by have := hF4 (by omega); omega)
        have e0 : 0xF0 + (s0 - 0xF0) = s0 := by omega
        have e1 : 0x80 + (s1 - 0x80) = s1 := by omega
        have e2 : 0x80 + (s2 - 0x80) = s2 := by omega
        have e3 : 0x80 + (s3 - 0x80) = s3 := by omega
        rw [e0, e1, e2, e3] at henc
        exact Or.inl ⟨_, t4, hsc, by rw [henc]; rfl⟩
    · exact Or.inr (Or.inr ⟨by simp, decode_invalid_lead s0 t (Or.inr (by omega))⟩)

theorem isExported_encode (IsUpper : Nat → Bool) (c : Nat) (rest : List Nat)
    (h : isScalarValue c) :
    isExported IsUpper (utf8Encode c ++ rest) = some (IsUpper c) := by
  simp [isExported, decode_encode c rest h]

theorem isExported_total (IsUpper : Nat → Bool) (name : List Nat) :
    ∃ b, isExported IsUpper name = some b := by
  rcases decode_cases name with ⟨c, rest, hsc, hname⟩ | ⟨-, hd⟩ | ⟨-, hd⟩
  · exact ⟨IsUpper c, by rw [hname, isExported_encode IsUpper c rest hsc]⟩
  · exact ⟨IsUpper RuneError, by simp [isExported, hd]⟩
  · exact ⟨IsUpper RuneError, by simp [isExported, hd]⟩

/-! ## The claims on the export visibility check -/

/-- C11: given that U+FFFD is not classified upper-case, `isExported` returns
true if and only if the name begins with the UTF-8 encoding of a code point
that the Unicode classification takes as an upper-case letter, and false
otherwise; on a name beginning with the encoding of `c` (of one to four
bytes) it returns the classification of `c`, the decoded code point, not of
the first byte. -/
theorem isExported_iff_first_char_upper (IsUpper : Nat → Bool)
    (hrep : IsUpper RuneError = false) (name : List Nat) :
    (isExported IsUpper name = some true ↔
      ∃ c rest, isScalarValue c ∧ name = utf8Encode c ++ rest ∧ IsUpper c = true) ∧
    (isExported IsUpper name = some false ↔
      ¬ ∃ c rest, isScalarValue c ∧ name = utf8Encode c ++ rest ∧ IsUpper c = true) ∧
    (∀ c rest, isScalarValue c →
      isExported IsUpper (utf8Encode c ++ rest) = some (IsUpper c)) := by
  have hiff : isExported IsUpper name = some true ↔
      ∃ c rest, isScalarValue c ∧ name = utf8Encode c ++ rest ∧ IsUpper c = true := by
    constructor
    · intro h
      rcases decode_cases name with ⟨c, rest, hsc, hname⟩ | ⟨-, hd⟩ | ⟨-, hd⟩
      · refine ⟨c, rest, hsc, hname, ?_⟩
        rw [hname, isExported_encode IsUpper c rest hsc] at h
        exact Option.some.inj h
      · simp [isExported, hd, hrep] at h
      · simp [isExported, hd, hrep] at h
    · rintro ⟨c, rest, hsc, hname, hup⟩
      rw [hname, isExported_encode IsUpper c rest hsc, hup]
  refine ⟨hiff, ?_, fun c rest hsc => isExported_encode IsUpper c rest hsc⟩
  obtain ⟨b, hb⟩ := isExported_total IsUpper name
  rw [← hiff, hb]
  cases b <;> simp

/-- Instance of C11 with the Latin-1 classification: `Éclair`, whose first
character takes two bytes, is exported; `éclair`, `item`, `9lives` and `_x`
are not. -/
theorem isExported_iff_first_char_upper_witness :
    latin1IsUpper RuneError = false ∧
    isExported latin1IsUpper [0xC3, 0x89, 0x63, 0x6C, 0x61, 0x69, 0x72] = some true ∧
    isExported latin1IsUpper [0xC3, 0xA9, 0x63, 0x6C, 0x61, 0x69, 0x72] = some false ∧
    isExported latin1IsUpper [0x69, 0x74, 0x65, 0x6D] = some false ∧
    isExported latin1IsUpper [0x39, 0x6C, 0x69, 0x76, 0x65, 0x73] = some false ∧
    isExported latin1IsUpper [0x5F, 0x78] = some false := by
  have hrep : latin1IsUpper RuneError = false := by decide
  refine ⟨hrep, ?_, ?_, ?_, ?_, ?_⟩
  · exact (isExported_iff_first_char_upper latin1IsUpper hrep
      [0xC3, 0x89, 0x63, 0x6C, 0x61, 0x69, 0x72]).1.2
      ⟨0xC9, [0x63, 0x6C, 0x61, 0x69, 0x72], Or.inl (by decide), by decide, by decide⟩
  · have h := (isExported_iff_first_char_upper latin1IsUpper hrep []).2.2
      0xE9 [0x63, 0x6C, 0x61, 0x69, 0x72] (Or.inl (by decide))
    have e : utf8Encode 0xE9 ++ [0x63, 0x6C, 0x61, 0x69, 0x72] =
        [0xC3, 0xA9, 0x63, 0x6C, 0x61, 0x69, 0x72] := by decide
    rw [e] at h
    rw [h]
    decide
  · have h := (isExported_iff_first_char_upper latin1IsUpper hrep []).2.2
      0x69 [0x74, 0x65, 0x6D] (Or.inl (by decide))
    have e : utf8Encode 0x69 ++ [0x74, 0x65, 0x6D] = [0x69, 0x74, 0x65, 0x6D] := by decide
    rw [e] at h
    rw [h]
    decide
  · have h := (isExported_iff_first_char_upper latin1IsUpper hrep []).2.2
      0x39 [0x6C, 0x69, 0x76, 0x65, 0x73] (Or.inl (by decide))
    have e : utf8Encode 0x39 ++ [0x6C, 0x69, 0x76, 0x65, 0x73] =
        [0x39, 0x6C, 0x69, 0x76, 0x65, 0x73] := by decide
    rw [e] at h
    rw [h]
    decide
  · have h := (isExported_iff_first_char_upper latin1IsUpper hrep []).2.2
      0x5F [0x78] (Or.inl (by decide))
    have e : utf8Encode 0x5F ++ [0x78] = [0x5F, 0x78] := by decide
    rw [e] at h
    rw [h]
    decide

/-- C19: given that U+FFFD is not classified upper-case, `isExported` returns
false for the empty name and for every name that does not begin with the
UTF-8 encoding of a scalar value; in both cases the decoder yields U+FFFD
(with width 0 for the empty name and width 1 otherwise), and for every name
the function returns a boolean, so no panic results. -/
theorem isExported_false_of_invalid (IsUpper : Nat → Bool)
    (hrep : IsUpper RuneError = false) :
    (DecodeRuneInString [] = some (RuneError, 0) ∧ isExported IsUpper [] = some false) ∧
    (∀ name, name ≠ [] →
      (¬ ∃ c rest, isScalarValue c ∧ name = utf8Encode c ++ rest) →
      DecodeRuneInString name = some (RuneError, 1) ∧
        isExported IsUpper name = some false) ∧
    (∀ name, ∃ b, isExported IsUpper name = some b) := by
  refine ⟨⟨decode_nil, by simp [isExported, decode_nil, hrep]⟩, ?_,
    fun name => isExported_total IsUpper name⟩
  intro name hne hinv
  rcases decode_cases name with ⟨c, rest, hsc, hname⟩ | ⟨hnil, -⟩ | ⟨-, hd⟩
  · exact absurd ⟨c, rest, hsc, hname⟩ hinv
  · exact absurd hnil hne
  · exact ⟨hd, by simp [isExported, hd, hrep]⟩

/-- Instance of C19 with the Latin-1 classification: the empty name, a name
starting with a continuation byte, a truncated two-byte sequence and an
encoded surrogate are all unexported. -/
theorem isExported_false_of_invalid_witness :
    latin1IsUpper RuneError = false ∧
    isExported latin1IsUpper [] = some false ∧
    isExported latin1IsUpper [0x80, 0x41] = some false ∧
    isExported latin1IsUpper [0xC3] = some false ∧
    isExported latin1IsUpper [0xED, 0xA0, 0x80] = some false := by
  have hrep : latin1IsUpper RuneError = false := by decide
  have key := isExported_false_of_invalid latin1IsUpper hrep
  have hbad : ∀ name : List Nat, DecodeRuneInString name = some (RuneError, 1) →
      ¬ ∃ c rest, isScalarValue c ∧ name = utf8Encode c ++ rest := by
    rintro name hd ⟨c, rest, hsc, hname⟩
    rw [hname, decode_encode c rest hsc] at hd
    have h2 := (Prod.mk.inj (Option.some.inj hd)).2
    have h1 := (Prod.mk.inj (Option.some.inj hd)).1
    subst h1
    revert h2
    decide
  refine ⟨hrep, key.1.2, ?_, ?_, ?_⟩
  · exact (key.2.1 [0x80, 0x41] (by decide) (hbad _ (by decide))).2
  · exact (key.2.1 [0xC3] (by decide) (hbad _ (by decide))).2
  · exact (key.2.1 [0xED, 0xA0, 0x80] (by decide) (hbad _ (by decide))).2

/-! ## Further claims on the predicates and the builders -/

/-- C12: given that the raw-byte type does not implement the structured-message
capability, every method shaped (receiver, context, rawBytes) is rejected by
`isRemoteMethod`, whatever its package path and outputs, and no descriptor of
a mapping returned by `suitableRemoteMethods` has it as handle. -/
theorem rawBytes_never_remote (I : RType → RType → Bool)
    (hbytes : I typeOfBytes typeOfProtoMsg = false) (method : Method) (recv ctx : RType)
    (hins : method.Typ.ins = [recv, ctx, typeOfBytes]) :
    isRemoteMethod I method = some false ∧
    ∀ (typ : OwnerType) (nameFunc : Option (String → String)),
      ∃ mp, suitableRemoteMethods I typ nameFunc = some mp ∧
        ∀ k r, GoMap.get mp k = some r → r.Method ≠ method := by
  have hnot : ¬ RemoteRules I method := by
    rintro ⟨-, -, -, h3, -⟩
    obtain ⟨t2, ht2, hI⟩ := h3 (by simp [hins])
    simp [hins] at ht2
    subst ht2
    rw [hbytes] at hI
    exact Bool.false_ne_true hI
  have hrej : isRemoteMethod I method = some false := by
    obtain ⟨b, hb⟩ := isRemoteMethod_total I method
    cases b with
    | false => exact hb
    | true => exact absurd ((isRemoteMethod_eq_true_iff I method).1 hb) hnot
  refine ⟨hrej, ?_⟩
  intro typ nameFunc
  refine ⟨_, suitableRemoteMethods_eq I typ nameFunc, ?_⟩
  intro k r hr heq
  obtain ⟨i, m2, -, -, hacc, -, hd⟩ := registry_get_some hr
  subst hd
  have hm : m2 = method := heq
  subst hm
  rw [(acceptsRemote_iff I m2).1 hacc] at hrej
  exact absurd hrej (by simp)

/-- Instance of C12 at `OnRaw` of the scenario type: it is rejected and the
Remote mapping of the scenario has no entry under `OnRaw`. -/
theorem rawBytes_never_remote_witness :
    scenarioImplements typeOfBytes typeOfProtoMsg = false ∧
    isRemoteMethod scenarioImplements
      { Name := "OnRaw", PkgPath := "", Index := 2
        Typ := { ins := [svcType, typeOfContext, typeOfBytes]
                 outs := [typeOfBytes, typeOfError] } } = some false ∧
    ∃ mp, suitableRemoteMethods scenarioImplements scenarioType none = some mp ∧
      GoMap.get mp "OnRaw" = none := by
  have key := rawBytes_never_remote scenarioImplements (by decide)
    { Name := "OnRaw", PkgPath := "", Index := 2
      Typ := { ins := [svcType, typeOfContext, typeOfBytes]
               outs := [typeOfBytes, typeOfError] } }
    svcType typeOfContext rfl
  refine ⟨by decide, key.1, ?_⟩
  obtain ⟨mp, hmp, -⟩ := key.2 scenarioType none
  refine ⟨mp, hmp, ?_⟩
  have hval : suitableRemoteMethods scenarioImplements scenarioType none =
      some [("Ping", remoteDescriptor
              { Name := "Ping", PkgPath := "", Index := 3
                Typ := { ins := [svcType, typeOfContext]
                         outs := [pongType, typeOfError] } }),
            ("GetItem", remoteDescriptor
              { Name := "GetItem", PkgPath := "", Index := 0
                Typ := { ins := [svcType, typeOfContext, reqType]
                         outs := [respType, typeOfError] } })] := by
    decide
  rw [hval] at hmp
  have hmp2 := Option.some.inj hmp
  subst hmp2
  decide

/-- C13: every method whose input count is neither 2 nor 3 is rejected by
`isRemoteMethod`, whatever its package path, input types and outputs. -/
theorem remote_arity_gate (I : RType → RType → Bool) (method : Method)
    (h2 : method.Typ.NumIn ≠ 2) (h3 : method.Typ.NumIn ≠ 3) :
    isRemoteMethod I method = some false := by
  unfold isRemoteMethod
  by_cases hp : method.PkgPath = ""
  · simp [hp, h2, h3]
  · simp [hp]

/-- Instance of C13: an exported method with the receiver as only input and a
method with four inputs, both with Remote-shaped outputs, are rejected. -/
theorem remote_arity_gate_witness :
    isRemoteMethod scenarioImplements
      { Name := "Ping", PkgPath := "", Index := 0
        Typ := { ins := [svcType], outs := [pongType, typeOfError] } } = some false ∧
    isRemoteMethod scenarioImplements
      { Name := "GetItem", PkgPath := "", Index := 0
        Typ := { ins := [svcType, typeOfContext, reqType, reqType]
                 outs := [respType, typeOfError] } } = some false :=
  ⟨remote_arity_gate scenarioImplements _ (by decide) (by decide),
   remote_arity_gate scenarioImplements _ (by decide) (by decide)⟩

/-- C14: every descriptor stored in a mapping returned by
`suitableHandlerMethods` carries an `argType` if and only if its method has 3
inputs, and that `argType` is the third input type; `isRawPayload` is true if
and only if the method has 3 inputs and the third is exactly the raw-byte
type; so `isRawPayload = true` never comes with a pointer-kinded `argType`,
and a handler with 2 inputs has `isRawPayload = false` and no `argType`. -/
theorem handler_argType_isRawPayload (I : RType → RType → Bool) (typ : OwnerType)
    (nameFunc : Option (String → String)) :
    ∃ mp, suitableHandlerMethods I typ nameFunc = some mp ∧
      ∀ k h, GoMap.get mp k = some h →
        (h.Typ.isSome = true ↔ h.Method.Typ.NumIn = 3) ∧
        (∀ t, h.Typ = some t → h.Method.Typ.In 2 = some t) ∧
        (h.IsRawArg = true ↔
          (h.Method.Typ.NumIn = 3 ∧ h.Method.Typ.In 2 = some typeOfBytes)) ∧
        (h.IsRawArg = true → ∀ t, h.Typ = some t → t = typeOfBytes ∧ t.kind ≠ Kind.Ptr) ∧
        (h.Method.Typ.NumIn = 2 → h.IsRawArg = false ∧ h.Typ = none) := by
  refine ⟨_, suitableHandlerMethods_eq I typ nameFunc, ?_⟩
  intro k h hh
  obtain ⟨i, method, -, hmi, hacc, -, hd⟩ := registry_get_some hh
  subst hd
  have hrules :=
    (isHandlerMethod_eq_true_iff I method).1 ((acceptsHandler_iff I method).1 hacc)
  obtain ⟨-, -, -, h3, -⟩ := hrules
  simp only [handlerDescriptor, FuncType.NumIn, FuncType.In]
  by_cases hlen : method.Typ.ins.length = 3
  · obtain ⟨t2, ht2, -⟩ := h3 hlen
    refine ⟨?_, ?_, ?_, ?_, ?_⟩
    · simp [hlen, ht2]
    · intro t ht
      simpa [hlen, ht2] using ht
    · simp [hlen, ht2]
    · intro hraw t ht
      simp only [hlen, ht2, if_true, true_and, Option.some.injEq, decide_eq_true_eq]
        at hraw ht
      subst ht
      subst hraw
      exact ⟨rfl, by decide⟩
    · intro h2
      omega
  · simp [hlen]

/-- C15: `isRemoteMethod` and `isHandlerMethod` return a boolean for every
signature and the loop bodies and builders return a mapping for every type and
rewrite function: no read of an input, of an output, of a method or of a map
entry is out of range, so nothing panics. -/
theorem predicates_and_builders_total (I : RType → RType → Bool) :
    (∀ method, ∃ b, isRemoteMethod I method = some b) ∧
    (∀ method, ∃ b, isHandlerMethod I method = some b) ∧
    (∀ typ nameFunc methods m, m < typ.NumMethod →
      ∃ mp, remoteLoopBody I typ nameFunc methods m = some mp) ∧
    (∀ typ nameFunc methods m, m < typ.NumMethod →
      ∃ mp, handlerLoopBody I typ nameFunc methods m = some mp) ∧
    (∀ typ nameFunc, ∃ mp, suitableRemoteMethods I typ nameFunc = some mp) ∧
    (∀ typ nameFunc, ∃ mp, suitableHandlerMethods I typ nameFunc = some mp) := by
  refine ⟨isRemoteMethod_total I, isHandlerMethod_total I, ?_, ?_,
    fun typ nameFunc => ⟨_, suitableRemoteMethods_eq I typ nameFunc⟩,
    fun typ nameFunc => ⟨_, suitableHandlerMethods_eq I typ nameFunc⟩⟩
  · intro typ nameFunc methods m hm
    obtain ⟨method, hmeth⟩ := method_isSome_of_lt typ m hm
    exact ⟨_, remoteLoopBody_eq I typ nameFunc methods m method hmeth⟩
  · intro typ nameFunc methods m hm
    obtain ⟨method, hmeth⟩ := method_isSome_of_lt typ m hm
    exact ⟨_, handlerLoopBody_eq I typ nameFunc methods m method hmeth⟩

/-- C16: for every owning type both builders return, with an absent rewrite
function, the same mapping as with the identity function on names. -/
theorem nil_rewrite_eq_identity (I : RType → RType → Bool) (typ : OwnerType) :
    suitableRemoteMethods I typ none = suitableRemoteMethods I typ (some id) ∧
    suitableHandlerMethods I typ none = suitableHandlerMethods I typ (some id) ∧
    (∃ mp, suitableRemoteMethods I typ none = some mp) ∧
    (∃ mp, suitableHandlerMethods I typ none = some mp) := by
  have hkey : (fun m : Method => publicName none m.Name) =
      (fun m : Method => publicName (some id) m.Name) := by
    funext m
    rfl
  refine ⟨?_, ?_, ⟨_, suitableRemoteMethods_eq I typ none⟩,
    ⟨_, suitableHandlerMethods_eq I typ none⟩⟩
  · rw [suitableRemoteMethods_eq, suitableRemoteMethods_eq, hkey]
  · rw [suitableHandlerMethods_eq, suitableHandlerMethods_eq, hkey]

/-! ## The registry as a function of the visiting order -/

theorem GoMap.mem_keys_set {V : Type} (m : GoMap V) (k k' : String) (v : V)
    (h : k' ∈ GoMap.keys (m.set k v)) : k' = k ∨ k' ∈ GoMap.keys m := by
  rw [GoMap.mem_keys_iff] at h
  obtain ⟨w, hw⟩ := h
  rw [GoMap.get_set] at hw
  by_cases hk : k' = k
  · exact Or.inl hk
  · rw [if_neg hk] at hw
    exact Or.inr ((GoMap.mem_keys_iff m k').2 ⟨w, hw⟩)

theorem GoMap.length_set_le {V : Type} (m : GoMap V) (k : String) (v : V) :
    (m.set k v).length ≤ m.length + 1 := by
  unfold GoMap.set
  simp only [List.length_cons]
  exact Nat.succ_le_succ (List.length_filter_le _ _)

theorem GoMap.length_set_of_not_mem {V : Type} (m : GoMap V) (k : String) (v : V)
    (h : k ∉ GoMap.keys m) : (m.set k v).length = m.length + 1 := by
  unfold GoMap.set
  have hf : m.filter (fun e => decide (e.1 ≠ k)) = m := by
    rw [List.filter_eq_self]
    intro e he
    have hne : e.1 ≠ k := by
      intro hek
      apply h
      simp only [GoMap.keys, List.mem_map]
      exact ⟨e, he, hek⟩
    simpa using hne
  rw [hf]
  rfl

theorem GoMap.nodup_keys_set {V : Type} (m : GoMap V) (k : String) (v : V)
    (h : (GoMap.keys m).Nodup) : (GoMap.keys (m.set k v)).Nodup := by
  unfold GoMap.set GoMap.keys
  rw [List.map_cons, List.nodup_cons]
  constructor
  · simp only [List.mem_map, List.mem_filter]
    rintro ⟨e, ⟨-, he⟩, hek⟩
    simp at he
    exact he hek
  · exact List.Nodup.sublist (List.Sublist.map _ (List.filter_sublist _)) h

theorem registryOfList_cons {D : Type} (accept : Method → Bool) (key : Method → String)
    (desc : Method → D) (x : Method) (xs : List Method) (acc : GoMap D) :
    registryOfList accept key desc (x :: xs) acc =
      registryOfList accept key desc xs (registryStep accept key desc acc x) := rfl

theorem foldlM_eq_registryOfList {D : Type} (typ : OwnerType)
    (body : GoMap D → Nat → Option (GoMap D)) (accept : Method → Bool)
    (key : Method → String) (desc : Method → D)
    (hbody : ∀ methods m method, typ.Method m = some method →
      body methods m =
        some (if accept method then methods.set (key method) (desc method) else methods))
    (order : List Nat) (horder : ∀ i ∈ order, i < typ.NumMethod) (acc : GoMap D) :
    order.foldlM body acc =
      some (registryOfList accept key desc (order.filterMap typ.Method) acc) := by
  induction order generalizing acc with
  | nil => rfl
  | cons i rest ih =>
    obtain ⟨method, hm⟩ := method_isSome_of_lt typ i (horder i (List.mem_cons_self _ _))
    rw [List.foldlM_cons, hbody acc i method hm, List.filterMap_cons_some hm,
      registryOfList_cons]
    exact ih (fun j hj => horder j (List.mem_cons_of_mem _ hj)) _

theorem get_registryOfList_of_none {D : Type} (accept : Method → Bool)
    (key : Method → String) (desc : Method → D) (k : String) (ms : List Method)
    (acc : GoMap D) (hnone : ∀ m ∈ ms, accept m = true → key m ≠ k) :
    GoMap.get (registryOfList accept key desc ms acc) k = GoMap.get acc k := by
  induction ms generalizing acc with
  | nil => rfl
  | cons x xs ih =>
    rw [registryOfList_cons, ih _ (fun m hm => hnone m (List.mem_cons_of_mem _ hm))]
    unfold registryStep
    by_cases hx : accept x = true
    · have hk : ¬ k = key x := fun h => hnone x (List.mem_cons_self _ _) hx h.symm
      rw [if_pos hx, GoMap.get_set, if_neg hk]
    · rw [if_neg hx]

theorem get_registryOfList_of_unique {D : Type} (accept : Method → Bool)
    (key : Method → String) (desc : Method → D) (m : Method) (ms : List Method)
    (acc : GoMap D) (hm : m ∈ ms) (hacc : accept m = true)
    (huniq : ∀ m2 ∈ ms, accept m2 = true → key m2 = key m → m2 = m) :
    GoMap.get (registryOfList accept key desc ms acc) (key m) = some (desc m) := by
  induction ms generalizing acc with
  | nil => simp at hm
  | cons x xs ih =>
    rw [registryOfList_cons]
    by_cases hin : m ∈ xs
    · exact ih _ hin (fun m2 h2 => huniq m2 (List.mem_cons_of_mem _ h2))
    · have hxm : m = x := by
        rcases List.mem_cons.1 hm with h | h
        · exact h
        · exact absurd h hin
      subst hxm
      rw [get_registryOfList_of_none]
      · unfold registryStep
        rw [if_pos hacc, GoMap.get_set, if_pos rfl]
      · intro m2 h2 hacc2 hkey
        have := huniq m2 (List.mem_cons_of_mem _ h2) hacc2 hkey
        subst this
        exact hin h2

theorem mem_keys_registryOfList {D : Type} (accept : Method → Bool)
    (key : Method → String) (desc : Method → D) (k : String) (ms : List Method)
    (acc : GoMap D) (h : k ∈ GoMap.keys (registryOfList accept key desc ms acc)) :
    k ∈ GoMap.keys acc ∨ ∃ m ∈ ms, accept m = true ∧ key m = k := by
  induction ms generalizing acc with
  | nil => exact Or.inl h
  | cons x xs ih =>
    rw [registryOfList_cons] at h
    rcases ih _ h with h1 | ⟨m, hm, hacc, hkey⟩
    · unfold registryStep at h1
      by_cases hx : accept x = true
      · rw [if_pos hx] at h1
        rcases GoMap.mem_keys_set _ _ _ _ h1 with h2 | h2
        · exact Or.inr ⟨x, List.mem_cons_self _ _, hx, h2.symm⟩
        · exact Or.inl h2
      · rw [if_neg hx] at h1
        exact Or.inl h1
    · exact Or.inr ⟨m, List.mem_cons_of_mem _ hm, hacc, hkey⟩

theorem length_registryOfList_le {D : Type} (accept : Method → Bool)
    (key : Method → String) (desc : Method → D) (ms : List Method) (acc : GoMap D) :
    (registryOfList accept key desc ms acc).length ≤ acc.length + ms.countP accept := by
  induction ms generalizing acc with
  | nil => simp [registryOfList]
  | cons x xs ih =>
    rw [registryOfList_cons]
    have h1 := ih (registryStep accept key desc acc x)
    unfold registryStep at h1 ⊢
    by_cases hx : accept x = true
    · rw [if_pos hx] at h1 ⊢
      have h2 := GoMap.length_set_le acc (key x) (desc x)
      rw [List.countP_cons_of_pos _ _ hx]
      omega
    · rw [if_neg hx] at h1 ⊢
      rw [List.countP_cons_of_neg _ _ hx]
      exact h1

theorem length_registryOfList_eq {D : Type} (accept : Method → Bool)
    (key : Method → String) (desc : Method → D) (ms : List Method) (acc : GoMap D)
    (hnodup : ms.Nodup)
    (hinj : ∀ m ∈ ms, ∀ m2 ∈ ms, accept m = true → accept m2 = true → key m = key m2 →
      m = m2)
    (hfresh : ∀ m ∈ ms, accept m = true → key m ∉ GoMap.keys acc) :
    (registryOfList accept key desc ms acc).length = acc.length + ms.countP accept := by
  induction ms generalizing acc with
  | nil => simp [registryOfList]
  | cons x xs ih =>
    rw [registryOfList_cons]
    have hx_notin : x ∉ xs := (List.nodup_cons.1 hnodup).1
    have hinj2 : ∀ m ∈ xs, ∀ m2 ∈ xs, accept m = true → accept m2 = true →
        key m = key m2 → m = m2 :=
      fun m hm m2 hm2 => hinj m (List.mem_cons_of_mem _ hm) m2 (List.mem_cons_of_mem _ hm2)
    by_cases hx : accept x = true
    · have hstep : registryStep accept key desc acc x = acc.set (key x) (desc x) := by
        unfold registryStep
        rw [if_pos hx]
      rw [hstep, ih _ (List.nodup_cons.1 hnodup).2 hinj2, List.countP_cons_of_pos _ _ hx,
        GoMap.length_set_of_not_mem _ _ _ (hfresh x (List.mem_cons_self _ _) hx)]
      · omega
      · intro m hm hacc hmem
        rcases GoMap.mem_keys_set _ _ _ _ hmem with h1 | h1
        · have := hinj m (List.mem_cons_of_mem _ hm) x (List.mem_cons_self _ _) hacc hx h1
          subst this
          exact hx_notin hm
        · exact hfresh m (List.mem_cons_of_mem _ hm) hacc h1
    · have hstep : registryStep accept key desc acc x = acc := by
        unfold registryStep
        rw [if_neg hx]
      rw [hstep, ih _ (List.nodup_cons.1 hnodup).2 hinj2
        (fun m hm => hfresh m (List.mem_cons_of_mem _ hm)),
        List.countP_cons_of_neg _ _ hx]

theorem nodup_keys_registryOfList {D : Type} (accept : Method → Bool)
    (key : Method → String) (desc : Method → D) (ms : List Method) (acc : GoMap D)
    (h : (GoMap.keys acc).Nodup) :
    (GoMap.keys (registryOfList accept key desc ms acc)).Nodup := by
  induction ms generalizing acc with
  | nil => exact h
  | cons x xs ih =>
    rw [registryOfList_cons]
    apply ih
    unfold registryStep
    by_cases hx : accept x = true
    · rw [if_pos hx]
      exact GoMap.nodup_keys_set _ _ _ h
    · rw [if_neg hx]
      exact h

theorem nodup_filterMap_method (typ : OwnerType) (order : List Nat) (h : order.Nodup) :
    (order.filterMap typ.Method).Nodup := by
  apply List.Nodup.filterMap _ h
  intro a a' b hb hb'
  have h1 := method_index_eq typ a b hb
  have h2 := method_index_eq typ a' b hb'
  omega

theorem inj_on_filterMap_method (typ : OwnerType) (accept : Method → Bool)
    (key : Method → String) (order : List Nat)
    (hinj : ∀ i j mi mj, typ.Method i = some mi → typ.Method j = some mj →
      accept mi = true → accept mj = true → key mi = key mj → i = j) :
    ∀ m ∈ order.filterMap typ.Method, ∀ m2 ∈ order.filterMap typ.Method,
      accept m = true → accept m2 = true → key m = key m2 → m = m2 := by
  intro m hm m2 hm2 hacc hacc2 hkey
  obtain ⟨i, -, hi⟩ := List.mem_filterMap.1 hm
  obtain ⟨j, -, hj⟩ := List.mem_filterMap.1 hm2
  have hij := hinj i j m m2 hi hj hacc hacc2 hkey
  subst hij
  rw [hi] at hj
  exact Option.some.inj hj

/-- The registry against the visiting order, for either builder: the builder
returns the map of the enumeration; its keys are pairwise distinct and its
size is at most the number of accepted methods; when distinct accepted methods
have distinct keys, the size is that number and visiting the indices in any
other order gives a map with the same entry under every key. -/
theorem registry_order_generic {D : Type} (typ : OwnerType)
    (body : GoMap D → Nat → Option (GoMap D)) (accept : Method → Bool)
    (key : Method → String) (desc : Method → D)
    (hbody : ∀ methods m method, typ.Method m = some method →
      body methods m =
        some (if accept method then methods.set (key method) (desc method) else methods)) :
    ∃ mp, (List.range typ.NumMethod).foldlM body [] = some mp ∧
      (GoMap.keys mp).Nodup ∧
      mp.length ≤ acceptedCount typ accept ∧
      ((∀ i j mi mj, typ.Method i = some mi → typ.Method j = some mj →
          accept mi = true → accept mj = true → key mi = key mj → i = j) →
        mp.length = acceptedCount typ accept ∧
        ∀ order : List Nat, order.Perm (List.range typ.NumMethod) →
          ∃ mp2, order.foldlM body [] = some mp2 ∧
            (∀ k, GoMap.get mp2 k = GoMap.get mp k) ∧
            mp2.length = mp.length ∧ (GoMap.keys mp2).Nodup) := by
  have hrange : ∀ i ∈ List.range typ.NumMethod, i < typ.NumMethod :=
    fun i hi => List.mem_range.1 hi
  refine ⟨registryOfList accept key desc (enumerate typ) [],
    foldlM_eq_registryOfList typ body accept key desc hbody _ hrange [],
    nodup_keys_registryOfList accept key desc _ [] List.nodup_nil, ?_, ?_⟩
  · have h := length_registryOfList_le accept key desc (enumerate typ) []
    simpa [acceptedCount] using h
  · intro hinj
    have hlen : (registryOfList accept key desc (enumerate typ) []).length =
        acceptedCount typ accept := by
      have h := length_registryOfList_eq accept key desc (enumerate typ) []
        (nodup_filterMap_method typ _ (List.nodup_range _))
        (inj_on_filterMap_method typ accept key _ hinj)
        (fun m _ _ hmem => by simp [GoMap.keys] at hmem)
      simpa [acceptedCount] using h
    refine ⟨hlen, ?_⟩
    intro order hperm
    have horder : ∀ i ∈ order, i < typ.NumMethod :=
      fun i hi => hrange i (hperm.mem_iff.1 hi)
    have hpermM : (order.filterMap typ.Method).Perm (enumerate typ) :=
      List.Perm.filterMap typ.Method hperm
    refine ⟨registryOfList accept key desc (order.filterMap typ.Method) [],
      foldlM_eq_registryOfList typ body accept key desc hbody order horder [], ?_, ?_,
      nodup_keys_registryOfList accept key desc _ [] List.nodup_nil⟩
    · intro k
      by_cases hex : ∃ m ∈ enumerate typ, accept m = true ∧ key m = k
      · obtain ⟨m, hm, hacc, hkey⟩ := hex
        subst hkey
        rw [get_registryOfList_of_unique accept key desc m _ [] (hpermM.mem_iff.2 hm) hacc
            (fun m2 hm2 hacc2 hk2 =>
              inj_on_filterMap_method typ accept key order hinj m2 hm2 m
                (hpermM.mem_iff.2 hm) hacc2 hacc hk2),
          get_registryOfList_of_unique accept key desc m _ [] hm hacc
            (fun m2 hm2 hacc2 hk2 =>
              inj_on_filterMap_method typ accept key (List.range typ.NumMethod) hinj m2 hm2 m
                hm hacc2 hacc hk2)]
      · have hnone : ∀ m ∈ enumerate typ, accept m = true → key m ≠ k :=
          fun m hm hacc hkey => hex ⟨m, hm, hacc, hkey⟩
        rw [get_registryOfList_of_none accept key desc k _ []
            (fun m hm => hnone m (hpermM.mem_iff.1 hm)),
          get_registryOfList_of_none accept key desc k _ [] hnone]
    · rw [hlen]
      have h := length_registryOfList_eq accept key desc (order.filterMap typ.Method) []
        (nodup_filterMap_method typ _ ((hperm.nodup_iff).2 (List.nodup_range _)))
        (inj_on_filterMap_method typ accept key _ hinj)
        (fun m _ _ hmem => by simp [GoMap.keys] at hmem)
      rw [h, acceptedCount, List.Perm.countP_eq accept hpermM]
      simp

/-- C17: for either builder the returned mapping has pairwise distinct keys and
at most as many entries as there are accepted methods; when distinct accepted
methods receive distinct keys (the rewrite function is injective on the names
of the accepted methods, which are distinct; with no rewrite function, the
accepted methods have distinct names), the number of entries equals the number
of accepted methods, and running the loop body over the method indices in any
other order yields a mapping with the same entry under every key and the same
number of entries. -/
theorem registry_order_independent (I : RType → RType → Bool) (typ : OwnerType)
    (nameFunc : Option (String → String)) :
    (∃ mp, suitableRemoteMethods I typ nameFunc = some mp ∧
      (GoMap.keys mp).Nodup ∧
      mp.length ≤ acceptedCount typ (acceptsRemote I) ∧
      ((∀ i j mi mj, typ.Method i = some mi → typ.Method j = some mj →
          isRemoteMethod I mi = some true → isRemoteMethod I mj = some true →
          publicName nameFunc mi.Name = publicName nameFunc mj.Name → i = j) →
        mp.length = acceptedCount typ (acceptsRemote I) ∧
        ∀ order : List Nat, order.Perm (List.range typ.NumMethod) →
          ∃ mp2, order.foldlM (remoteLoopBody I typ nameFunc) [] = some mp2 ∧
            (∀ k, GoMap.get mp2 k = GoMap.get mp k) ∧
            mp2.length = mp.length ∧ (GoMap.keys mp2).Nodup)) ∧
    (∃ mp, suitableHandlerMethods I typ nameFunc = some mp ∧
      (GoMap.keys mp).Nodup ∧
      mp.length ≤ acceptedCount typ (acceptsHandler I) ∧
      ((∀ i j mi mj, typ.Method i = some mi → typ.Method j = some mj →
          isHandlerMethod I mi = some true → isHandlerMethod I mj = some true →
          publicName nameFunc mi.Name = publicName nameFunc mj.Name → i = j) →
        mp.length = acceptedCount typ (acceptsHandler I) ∧
        ∀ order : List Nat, order.Perm (List.range typ.NumMethod) →
          ∃ mp2, order.foldlM (handlerLoopBody I typ nameFunc) [] = some mp2 ∧
            (∀ k, GoMap.get mp2 k = GoMap.get mp k) ∧
            mp2.length = mp.length ∧ (GoMap.keys mp2).Nodup)) := by
  constructor
  · obtain ⟨mp, hmp, hnd, hle, hinjres⟩ :=
      registry_order_generic typ (remoteLoopBody I typ nameFunc) (acceptsRemote I)
        (fun m => publicName nameFunc m.Name) remoteDescriptor
        (fun methods m method hm => remoteLoopBody_eq I typ nameFunc methods m method hm)
    refine ⟨mp, hmp, hnd, hle, ?_⟩
    intro hinj
    exact hinjres (fun i j mi mj hi hj hacc hacc2 hkey =>
      hinj i j mi mj hi hj ((acceptsRemote_iff I mi).1 hacc)
        ((acceptsRemote_iff I mj).1 hacc2) hkey)
  · obtain ⟨mp, hmp, hnd, hle, hinjres⟩ :=
      registry_order_generic typ (handlerLoopBody I typ nameFunc) (acceptsHandler I)
        (fun m => publicName nameFunc m.Name) handlerDescriptor
        (fun methods m method hm => handlerLoopBody_eq I typ nameFunc methods m method hm)
    refine ⟨mp, hmp, hnd, hle, ?_⟩
    intro hinj
    exact hinjres (fun i j mi mj hi hj hacc hacc2 hkey =>
      hinj i j mi mj hi hj ((acceptsHandler_iff I mi).1 hacc)
        ((acceptsHandler_iff I mj).1 hacc2) hkey)

/-- C18: given that the raw-byte type does not implement the structured-message
capability, a method accepted by `isRemoteMethod` that has 2 inputs or a
pointer-kinded third input is accepted by `isHandlerMethod` too; in every type
that enumerates it its public name is a key of both mappings, the Handler
descriptor the loop stores for it has `messageKind = Request` and
`isRawPayload = false`, and so has every entry of the Handler mapping with this
method as handle. A method accepted by `isRemoteMethod` whose third input is
not pointer-kinded is rejected by `isHandlerMethod`. -/
theorem remote_shaped_handler (I : RType → RType → Bool)
    (hbytes : I typeOfBytes typeOfProtoMsg = false) (method : Method)
    (hrem : isRemoteMethod I method = some true) :
    ((method.Typ.NumIn = 2 ∨ ∃ t2, method.Typ.In 2 = some t2 ∧ t2.kind = Kind.Ptr) →
      isHandlerMethod I method = some true ∧
      ∀ (typ : OwnerType) (nameFunc : Option (String → String)) (i : Nat),
        typ.Method i = some method →
        (∀ methods, ∃ h,
          handlerLoopBody I typ nameFunc methods i =
            some (GoMap.set methods (publicName nameFunc method.Name) h) ∧
          h.Method = method ∧ h.MessageType = MessageType.Request ∧ h.IsRawArg = false) ∧
        ∃ mr mh, suitableRemoteMethods I typ nameFunc = some mr ∧
          suitableHandlerMethods I typ nameFunc = some mh ∧
          publicName nameFunc method.Name ∈ GoMap.keys mr ∧
          publicName nameFunc method.Name ∈ GoMap.keys mh ∧
          ∀ k h, GoMap.get mh k = some h → h.Method = method →
            h.MessageType = MessageType.Request ∧ h.IsRawArg = false) ∧
    ((∃ t2, method.Typ.In 2 = some t2 ∧ t2.kind ≠ Kind.Ptr) →
      isHandlerMethod I method = some false) := by
  have hrules := (isRemoteMethod_eq_true_iff I method).1 hrem
  obtain ⟨hexp, hlen, hctx, h3, houts, ⟨o0, ho0, hk0, -⟩, ho1⟩ := hrules
  constructor
  · intro hshape
    have hthird : method.Typ.ins.length = 3 →
        ∃ t2, method.Typ.ins[2]? = some t2 ∧ t2.kind = Kind.Ptr := by
      intro hl
      rcases hshape with h2 | ⟨t2, ht2, hk⟩
      · simp only [FuncType.NumIn] at h2
        omega
      · exact ⟨t2, ht2, hk⟩
    have hacc : isHandlerMethod I method = some true := by
      rw [isHandlerMethod_eq_true_iff]
      refine ⟨hexp, hlen, hctx, ?_, Or.inr houts, fun _ => ⟨ho1, o0, ho0, Or.inr hk0⟩⟩
      intro hl
      obtain ⟨t2, ht2, hk⟩ := hthird hl
      exact ⟨t2, ht2, Or.inl hk⟩
    have hkind : (handlerDescriptor method).MessageType = MessageType.Request := by
      simp [handlerDescriptor, houts]
    have hraw : (handlerDescriptor method).IsRawArg = false := by
      simp only [handlerDescriptor, decide_eq_false_iff_not, not_and]
      intro hl hb
      obtain ⟨t2, ht2, hk⟩ := hthird hl
      rw [ht2] at hb
      have := Option.some.inj hb
      subst this
      revert hk
      decide
    refine ⟨hacc, ?_⟩
    intro typ nameFunc i hmi
    refine ⟨?_, _, _, suitableRemoteMethods_eq I typ nameFunc,
      suitableHandlerMethods_eq I typ nameFunc, ?_, ?_, ?_⟩
    · intro methods
      refine ⟨handlerDescriptor method, ?_, rfl, hkind, hraw⟩
      rw [handlerLoopBody_eq I typ nameFunc methods i method hmi,
        (acceptsHandler_iff I method).2 hacc]
      rfl
    · rw [GoMap.mem_keys_iff]
      exact @registry_get_isSome _ typ (acceptsRemote I)
        (fun m => publicName nameFunc m.Name) remoteDescriptor i method hmi
        ((acceptsRemote_iff I method).2 hrem)
    · rw [GoMap.mem_keys_iff]
      exact @registry_get_isSome _ typ (acceptsHandler I)
        (fun m => publicName nameFunc m.Name) handlerDescriptor i method hmi
        ((acceptsHandler_iff I method).2 hacc)
    · intro k h hh heq
      obtain ⟨j, m2, -, -, -, -, hd⟩ := registry_get_some hh
      subst hd
      have : m2 = method := heq
      subst this
      exact ⟨hkind, hraw⟩
  · rintro ⟨t2, ht2, hk⟩
    have hnot : ¬ HandlerRules I method := by
      rintro ⟨-, -, -, g3, -⟩
      have hl : method.Typ.ins.length = 3 := by
        rcases hlen with h | h
        · simp only [FuncType.In] at ht2
          have := List.getElem?_eq_none (l := method.Typ.ins) (n := 2) (by omega)
          rw [this] at ht2
          exact absurd ht2 (by simp)
        · exact h
      obtain ⟨u, hu, hI⟩ := h3 hl
      obtain ⟨u2, hu2, hor⟩ := g3 hl
      simp only [FuncType.In] at ht2
      rw [ht2] at hu hu2
      have e1 := Option.some.inj hu
      have e2 := Option.some.inj hu2
      subst e1
      subst e2
      rcases hor with h | h
      · exact hk h
      · rw [h, hbytes] at hI
        exact Bool.false_ne_true hI
    obtain ⟨b, hb⟩ := isHandlerMethod_total I method
    cases b with
    | false => exact hb
    | true => exact absurd ((isHandlerMethod_eq_true_iff I method).1 hb) hnot

/-- Instance of C18: with `proto.Message` implementing the structured-message
capability, `GetItem(ctx, *Req) (*Resp, error)` is accepted by both
predicates, while `Put(ctx, proto.Message) (*Resp, error)`, whose payload is an
interface type, is accepted by `isRemoteMethod` and rejected by
`isHandlerMethod`. -/
theorem remote_shaped_handler_witness :
    scenarioImplementsIface typeOfBytes typeOfProtoMsg = false ∧
    isRemoteMethod scenarioImplementsIface
      { Name := "GetItem", PkgPath := "", Index := 0
        Typ := { ins := [svcType, typeOfContext, reqType]
                 outs := [respType, typeOfError] } } = some true ∧
    isHandlerMethod scenarioImplementsIface
      { Name := "GetItem", PkgPath := "", Index := 0
        Typ := { ins := [svcType, typeOfContext, reqType]
                 outs := [respType, typeOfError] } } = some true ∧
    isRemoteMethod scenarioImplementsIface
      { Name := "Put", PkgPath := "", Index := 0
        Typ := { ins := [svcType, typeOfContext, typeOfProtoMsg]
                 outs := [respType, typeOfError] } } = some true ∧
    isHandlerMethod scenarioImplementsIface
      { Name := "Put", PkgPath := "", Index := 0
        Typ := { ins := [svcType, typeOfContext, typeOfProtoMsg]
                 outs := [respType, typeOfError] } } = some false :=
  ⟨by decide, by decide,
    ((remote_shaped_handler scenarioImplementsIface (by decide)
      { Name := "GetItem", PkgPath := "", Index := 0
        Typ := { ins := [svcType, typeOfContext, reqType]
                 outs := [respType, typeOfError] } } (by decide)).1
      (Or.inr ⟨reqType, rfl, rfl⟩)).1,
    by decide,
    (remote_shaped_handler scenarioImplementsIface (by decide)
      { Name := "Put", PkgPath := "", Index := 0
        Typ := { ins := [svcType, typeOfContext, typeOfProtoMsg]
                 outs := [respType, typeOfError] } } (by decide)).2
      ⟨typeOfProtoMsg, rfl, by decide⟩⟩

/-- Instance of C17 on the scenario type with no rewrite function: the Remote
mapping has 2 entries, as many as there are accepted methods, and visiting the
five methods in reverse order gives the same entry under every key. -/
theorem registry_order_independent_witness :
    ∃ mp mp2, suitableRemoteMethods scenarioImplements scenarioType none = some mp ∧
      [4, 3, 2, 1, 0].foldlM (remoteLoopBody scenarioImplements scenarioType none) [] =
        some mp2 ∧
      (∀ k, GoMap.get mp2 k = GoMap.get mp k) ∧ mp.length = 2 ∧ mp2.length = 2 := by
  obtain ⟨⟨mp, hmp, -, -, hinjres⟩, -⟩ :=
    registry_order_independent scenarioImplements scenarioType none
  have hinj : ∀ i j mi mj, scenarioType.Method i = some mi →
      scenarioType.Method j = some mj →
      isRemoteMethod scenarioImplements mi = some true →
      isRemoteMethod scenarioImplements mj = some true →
      publicName none mi.Name = publicName none mj.Name → i = j := by
    intro i j mi mj hi hj
    have hi5 : i < 5 := method_lt_numMethod scenarioType i mi hi
    have hj5 : j < 5 := method_lt_numMethod scenarioType j mj hj
    interval_cases i <;> interval_cases j <;>
      simp only [OwnerType.Method, scenarioType, List.getElem?_cons_zero,
        List.getElem?_cons_succ, Option.map_some', Option.some.injEq] at hi hj <;>
      subst hi <;> subst hj <;> decide
  obtain ⟨hcount, horder⟩ := hinjres hinj
  obtain ⟨mp2, hmp2, hget, hlen2, -⟩ := horder [4, 3, 2, 1, 0] (by decide)
  have hc : acceptedCount scenarioType (acceptsRemote scenarioImplements) = 2 := by decide
  refine ⟨mp, mp2, hmp, hmp2, hget, by rw [hcount, hc], by rw [hlen2, hcount, hc]⟩

end Component
